import Mathlib

/-!
Verification development for the civirt repository (configuration compiler,
VM lifecycle orchestrator and cloud-init image builder).

The Python source is shallowly embedded:

* YAML/Python values are modelled by the mutual inductive `PVal`
  (`PValList`, `PValDict`); Python dicts are association lists with
  overwrite-in-place-or-append assignment (`pyDictSet`), mirroring CPython
  insertion-order semantics.
* Subprocess calls and filesystem probes are oracles passed in through
  environment records; the functions return the trace of external effects
  they perform together with an optional raised exception.
* Object identity and `copy.deepcopy` (relevant to the configuration
  compiler's isolation guarantee) are modelled by an explicit heap of
  objects (`Heap`, `HObj`) with an allocating writer `writeVal` and a
  fuel-indexed reader `readVal`.
-/

/- Python/YAML values (pure snapshots, no object identity). -/
mutual

inductive PVal where
  | pnone : PVal
  | pbool : Bool → PVal
  | pnat : Nat → PVal
  | pstr : String → PVal
  | plist : PValList → PVal
  | pdict : PValDict → PVal
deriving DecidableEq

inductive PValList where
  | nil : PValList
  | cons : PVal → PValList → PValList
deriving DecidableEq

inductive PValDict where
  | nil : PValDict
  | cons : String → PVal → PValDict → PValDict
deriving DecidableEq

end

/-- Lookup of a key in a Python dict (first, i.e. unique, occurrence). -/
def pyDictGet : PValDict → String → Option PVal
  | PValDict.nil, _ => none
  | PValDict.cons k v rest, key => if k = key then some v else pyDictGet rest key

/-- Python dict item assignment: overwrite the existing entry in place, or
append a new entry at the end (CPython insertion order). -/
def pyDictSet : PValDict → String → PVal → PValDict
  | PValDict.nil, key, v => PValDict.cons key v PValDict.nil
  | PValDict.cons k w rest, key, v =>
    if k = key then PValDict.cons k v rest else PValDict.cons k w (pyDictSet rest key v)

/-- Python `d1.update(d2)`: assign every entry of `d2` into `d1`, in order. -/
def pyUpdate (base upd : PValDict) : PValDict :=
  match upd with
  | PValDict.nil => base
  | PValDict.cons k v rest => pyUpdate (pyDictSet base k v) rest

/-- Keys of a Python dict, in insertion order. -/
def pyDictKeys : PValDict → List String
  | PValDict.nil => []
  | PValDict.cons k _ rest => k :: pyDictKeys rest

/-- Embed a list of strings as a Python list value. -/
def plistOfStrings : List String → PValList
  | [] => PValList.nil
  | s :: rest => PValList.cons (PVal.pstr s) (plistOfStrings rest)

/-- Truthiness of a Python integer under `not`: `not n` is true iff `n == 0`.
Used by `delete`, which branches on `not self.domain_is_defined(...)` where
the operand is a subprocess exit code. -/
def pyNot (n : Nat) : Bool := n == 0

/-- First line of a text document (everything before the first newline). -/
def firstLine (s : String) : String := String.mk (s.data.takeWhile (fun c => c != '\n'))

/-! ## Data model of `civirt/virtualmachine.py` -/

/-- Entry of the `volumes` list of a machine: `{name?, size?, dir?}`.
A present-but-null YAML value and an absent key both read back as `None`
through `vol.get(...)`, so both are modelled as `none`; `some ""` models an
explicit empty-string name. -/
structure Volume where
  name : Option String
  size : Option String
  dir : Option String
deriving DecidableEq

/-- Per-machine settings dict as consumed by `VirtualMachine.__init__`.
Each field is `none` when the key is absent from the dict (so direct
indexing raises `KeyError`); `size` and `userdata` additionally distinguish
a present-but-null value via a nested `Option`. -/
structure Settings where
  hostname : Option String
  network : Option String
  domain : Option String
  variant : Option String
  cpu : Option Nat
  mem : Option Nat
  volumes : Option (List Volume)
  ssh_keys : Option (List String)
  userdata : Option (Option PValDict)
  nameservers : Option (List String)
  directory : Option String
  backingdisk : Option String
  size : Option (Option Nat)
deriving DecidableEq

/-- Result of `Network.get_info` (`civirt/network.py`): the five attributes
extracted from the libvirt network XML, each possibly absent. -/
structure NetInfo where
  domain : Option String
  dhcp_start : Option String
  dhcp_end : Option String
  gateway : Option String
  netmask : Option String
deriving DecidableEq

/-- Python `settings[key]`: the value, or a raised `KeyError`. -/
def pyIndex {α : Type} (v : Option α) (key : String) : Except String α :=
  match v with
  | some x => Except.ok x
  | none => Except.error ("KeyError: " ++ key)

/-- The fields of a fully constructed `VirtualMachine` object. -/
structure VMRecord where
  hostname : String
  network : String
  domain : String
  variant : String
  cpu : Nat
  mem : Nat
  volumes : List Volume
  ssh_keys : List String
  name : String
  directory : String
  fqdn : String
  qcow2_bdisk : String
  qcow2_size : Option Nat
  qcow2_path : String
  userdata : PValDict
  metadata_instance_id : String
  metadata_local_hostname : String
  cloudinit_path : String
deriving DecidableEq

namespace VirtualMachine

/-- Model of `VirtualMachine.get_net`: query the libvirt network for
`network`, fail when no domain name is configured.  The assignment
`self.domain = net_infos.get('domain', None) or self.net['domain']`
evaluates its right operand (an `AttributeError`, since `self.net` does not
exist) when the reported domain is falsy, i.e. the empty string. -/
def get_net (netLookup : String → NetInfo) (network : String) : Except String String :=
  match (netLookup network).domain with
  | none => Except.error ("ERROR: No domain name configured for network " ++ network)
  | some d => if d = "" then Except.error "AttributeError" else Except.ok d

/-- Model of `VirtualMachine.__init__`: reads settings keys in source
order (`hostname`, `variant`, ..., `directory`, then `get_net`, then
`backingdisk`, `size`, `userdata`), computes the derived fields and
performs the cloud-init userdata injection of lines 53-68. -/
def init (netLookup : String → NetInfo) (s : Settings) : Except String VMRecord := do
  let hostname ← pyIndex s.hostname "hostname"
  let network := s.network.getD "default"
  let variant ← pyIndex s.variant "variant"
  let cpu := s.cpu.getD 1
  let mem := s.mem.getD 512
  let volumes := s.volumes.getD []
  let ssh_keys := s.ssh_keys.getD []
  let directory ← pyIndex s.directory "directory"
  let name := network ++ "_" ++ hostname
  let domain ← get_net netLookup network
  let fqdn := hostname ++ "." ++ domain
  let qcow2_bdisk ← pyIndex s.backingdisk "backingdisk"
  let qcow2_size ← pyIndex s.size "size"
  let qcow2_path := directory ++ "/" ++ name ++ ".qcow2"
  let udOpt ← pyIndex s.userdata "userdata"
  let ud ← match udOpt with
    | some d => Except.ok d
    | none => Except.error "TypeError"
  let resolveBase := match s.nameservers with
    | some ns => if ns.isEmpty then PValDict.nil
        else PValDict.cons "nameservers" (PVal.plist (plistOfStrings ns)) PValDict.nil
    | none => PValDict.nil
  let userdata_resolve := if domain = "" then resolveBase
    else pyDictSet (pyDictSet resolveBase "domain" (PVal.pstr domain))
      "searchdomains" (PVal.plist (PValList.cons (PVal.pstr domain) PValList.nil))
  let ud := pyDictSet ud "manage_resolv_conf" (PVal.pbool true)
  let ud := pyDictSet ud "resolv_conf" (PVal.pdict userdata_resolve)
  let ud := pyDictSet ud "hostname" (PVal.pstr hostname)
  let ud := pyDictSet ud "fqdn" (PVal.pstr fqdn)
  let ud := pyDictSet ud "ssh_authorized_keys" (PVal.plist (plistOfStrings ssh_keys))
  Except.ok
    { hostname := hostname
      network := network
      domain := domain
      variant := variant
      cpu := cpu
      mem := mem
      volumes := volumes
      ssh_keys := ssh_keys
      name := name
      directory := directory
      fqdn := fqdn
      qcow2_bdisk := qcow2_bdisk
      qcow2_size := qcow2_size
      qcow2_path := qcow2_path
      userdata := ud
      metadata_instance_id := name
      metadata_local_hostname := hostname
      cloudinit_path := directory ++ "/" ++ name ++ ".iso" }

/-- Model of the static method `VirtualMachine.domain_is_defined`: it
returns the exit code of `virsh dumpxml <domain>` unchanged (0 exactly when
the domain is defined). -/
def domain_is_defined (dumpxmlRc : Nat) : Nat := dumpxmlRc

/-- Truthiness of the optional overlay size (`if self.qcow2['size']:`). -/
def sizeTruthy : Option Nat → Bool
  | none => false
  | some n => n != 0

/-- The `qemu-img create` command built by `create_disk`, with the overlay
size appended only when it is truthy. -/
def qemu_img_cmd (bdisk path : String) (size : Option Nat) : List String :=
  ["qemu-img", "create", "-b", bdisk, "-f", "qcow2", "-F", "qcow2", path]
    ++ (if sizeTruthy size then [toString (size.getD 0)] else [])

/-- Model of `VirtualMachine.create_disk`: first fail when the backing disk
is missing, then return without cloning when the overlay already exists,
else run `qemu-img` (which may itself fail).  Returns the subprocess
invocations performed and the raised exception, if any. -/
def create_disk (bdisk path : String) (size : Option Nat)
    (backingExists overlayExists cloneOk : Bool) : List (List String) × Option String :=
  if !backingExists then ([], some "BackingDiskException")
  else if overlayExists then ([], none)
  else if cloneOk then ([qemu_img_cmd bdisk path size], none)
  else ([qemu_img_cmd bdisk path size], some "CalledProcessError")

/-- External effects performed by `VirtualMachine.create`. -/
inductive CEffect where
  | makedirs : CEffect
  | probeInstance : CEffect
  | qemuImgCreate : CEffect
  | virtInstallXml : CEffect
  | virshDefine : CEffect
  | writeIso : CEffect
  | attachIso : CEffect
  | virshStart : CEffect
  | virshMetadata : CEffect
deriving DecidableEq

/-- Oracle results for the external world consulted by `create`. -/
structure CreateEnv where
  dirExists : Bool
  instanceDefined : Bool
  backingDiskExists : Bool
  overlayExists : Bool
  qemuImgOk : Bool
  virtInstallOk : Bool
  virshDefineOk : Bool
  macFound : Bool
  isoWriteOk : Bool
  attachOk : Bool
  startOk : Bool
  metadataOk : Bool

/-- Model of `VirtualMachine.create`: ensure the working directory, probe
the instance (returning immediately when it is already defined), then run
the disk clone, descriptor generation, define, iso build, attach, start and
best-effort metadata steps, stopping at the first raised exception.
Returns the trace of external effects and the raised exception, if any. -/
def create (bdisk qcow2Path : String) (size : Option Nat) (env : CreateEnv) :
    List CEffect × Option String :=
  let pre := (if env.dirExists then [] else [CEffect.makedirs]) ++ [CEffect.probeInstance]
  if env.instanceDefined then (pre, none)
  else
    let diskStep := create_disk bdisk qcow2Path size env.backingDiskExists env.overlayExists env.qemuImgOk
    let t2 := diskStep.1.map (fun _ => CEffect.qemuImgCreate)
    match diskStep.2 with
    | some e => (pre ++ t2, some e)
    | none =>
      let t3 := t2 ++ [CEffect.virtInstallXml]
      if !env.virtInstallOk then (pre ++ t3, some "CalledProcessError")
      else
        let t4 := t3 ++ [CEffect.virshDefine]
        if !env.virshDefineOk then (pre ++ t4, some "CalledProcessError")
        else if !env.macFound then (pre ++ t4, some "NoMacAddressException")
        else
          let t5 := t4 ++ [CEffect.writeIso]
          if !env.isoWriteOk then (pre ++ t5, some "IOError")
          else
            let t6 := t5 ++ [CEffect.attachIso]
            if !env.attachOk then (pre ++ t6, some "CalledProcessError")
            else
              let t7 := t6 ++ [CEffect.virshStart]
              if !env.startOk then (pre ++ t7, some "CalledProcessError")
              else (pre ++ t7 ++ [CEffect.virshMetadata], none)

/-- One `--disk` clause value of the `virt-install` command line. -/
def vol_clause (vdir vname vsize : String) : String :=
  vdir ++ "/" ++ vname ++ ".qcow2" ++ ",format=qcow2,bus=virtio,size=" ++ vsize

/-- Extra-volume arguments appended by `create_vm`: a volume whose name is
falsy (absent, null or empty) receives the positional name
`<name>_disk<incr>` and bumps the counter, otherwise the configured name
prefixed with `vol_`. -/
def create_vm_extra_disk_args (selfName selfDir : String) : List Volume → Nat → List (List String)
  | [], _ => []
  | v :: vs, incr =>
    let vsize := v.size.getD "40"
    let vdir := v.dir.getD selfDir
    if v.name.getD "" = "" then
      ["--disk", vol_clause vdir (selfName ++ "_disk" ++ toString incr) vsize]
        :: create_vm_extra_disk_args selfName selfDir vs (incr + 1)
    else
      ["--disk", vol_clause vdir ("vol_" ++ v.name.getD "") vsize]
        :: create_vm_extra_disk_args selfName selfDir vs incr

/-- File paths of the positionally named volumes as produced inside
`create_vm` (the path part of each unnamed volume's `--disk` clause),
mirroring the guard `if not vol_name:` of the source. -/
def create_vm_unnamed_paths (selfName selfDir : String) : List Volume → Nat → List String
  | [], _ => []
  | v :: vs, incr =>
    if v.name.getD "" = "" then
      ((v.dir.getD selfDir) ++ "/" ++ selfName ++ "_disk" ++ toString incr ++ ".qcow2")
        :: create_vm_unnamed_paths selfName selfDir vs (incr + 1)
    else create_vm_unnamed_paths selfName selfDir vs incr

/-- File paths reconstructed by the volume-removal loop of `delete`,
mirroring the guard `if vol_name is None:` of the source (note: `is None`,
not truthiness). -/
def delete_unnamed_vol_paths (selfName selfDir : String) : List Volume → Nat → List String
  | [], _ => []
  | v :: vs, incr =>
    match v.name with
    | some _ => delete_unnamed_vol_paths selfName selfDir vs incr
    | none =>
      ((v.dir.getD selfDir) ++ "/" ++ selfName ++ "_disk" ++ toString incr ++ ".qcow2")
        :: delete_unnamed_vol_paths selfName selfDir vs (incr + 1)

/-- Positional reconstruction described by the specification: the n-th
volume without a name (counting from 1, in declaration order, skipping
named ones) resolves to `<name>_disk<n>`. -/
def spec_positional_paths (selfName selfDir : String) (vols : List Volume) (start : Nat) : List String :=
  (List.enumFrom start (vols.filter (fun v => v.name.isNone))).map
    (fun p => (p.2.dir.getD selfDir) ++ "/" ++ selfName ++ "_disk" ++ toString p.1 ++ ".qcow2")

/-- External effects performed by `VirtualMachine.delete`. -/
inductive DEffect where
  | virshDestroy : DEffect
  | virshUndefine : DEffect
  | removeFile : String → DEffect
  | rmdir : DEffect
deriving DecidableEq

/-- Oracle results for the external world consulted by `delete`. -/
structure DeleteEnv where
  dumpxmlRc : Nat
  qcow2Exists : Bool
  isoExists : Bool
  volFileExists : String → Bool
  removeOk : String → Bool

/-- Model of `VirtualMachine.delete_file`: attempt the removal, raising
`IOError` when it fails. -/
def delete_file (path : String) (removeOk : Bool) : List DEffect × Option String :=
  ([DEffect.removeFile path], if removeOk then none else some "IOError")

/-- The volume-removal loop of `delete`: remove each reconstructed
positional file when it exists (a failed removal raises and aborts), and
bump the counter only for volumes whose name is `None`. -/
def delete_vols (name directory : String) (env : DeleteEnv) : List Volume → Nat → List DEffect × Option String
  | [], _ => ([], none)
  | v :: vs, incr =>
    match v.name with
    | some _ => delete_vols name directory env vs incr
    | none =>
      let vpath := (v.dir.getD directory) ++ "/" ++ name ++ "_disk" ++ toString incr ++ ".qcow2"
      if env.volFileExists vpath then
        match delete_file vpath (env.removeOk vpath) with
        | (tr, some e) => (tr, some e)
        | (tr, none) =>
          let rest := delete_vols name directory env vs (incr + 1)
          (tr ++ rest.1, rest.2)
      else delete_vols name directory env vs (incr + 1)

/-- Sequential composition of two effectful steps: a raised exception in
the first aborts, otherwise the second runs and its effects are appended. -/
def andThenD (a : List DEffect × Option String) (b : Unit → List DEffect × Option String) :
    List DEffect × Option String :=
  match a with
  | (t, some e) => (t, some e)
  | (t, none) => (t ++ (b ()).1, (b ()).2)

/-- Model of `VirtualMachine.delete`: run the libvirt cleanup
(stop-then-undefine, neither failure fatal) exactly when
`not self.domain_is_defined(name)` is true, i.e. when the `virsh dumpxml`
exit code is 0; then remove the overlay disk, the cloud-init iso and the
unnamed volume files, each skipped with a log line when absent, and a
raised removal failure aborting the remaining steps.  The final
`os.listdir(...) is None` guard of the source is never true, so the
directory removal never happens. -/
def delete (name qcow2Path isoPath directory : String) (volumes : List Volume)
    (env : DeleteEnv) : List DEffect × Option String :=
  let cleanup := if pyNot (domain_is_defined env.dumpxmlRc)
    then [DEffect.virshDestroy, DEffect.virshUndefine] else []
  andThenD (cleanup, none) (fun _ =>
    andThenD (if env.qcow2Exists then delete_file qcow2Path (env.removeOk qcow2Path) else ([], none))
      (fun _ =>
        andThenD (if env.isoExists then delete_file isoPath (env.removeOk isoPath) else ([], none))
          (fun _ => delete_vols name directory env volumes 1)))

/-- One document of the cloud-init iso, present under both its ISO-9660
short name and its Joliet long name. -/
structure IsoFile where
  isoPath : String
  jolietPath : String
  content : String
deriving DecidableEq

/-- The iso image produced by `create_iso`. -/
structure IsoImage where
  interchangeLevel : Nat
  joliet : Bool
  sysIdent : String
  volIdent : String
  files : List IsoFile
deriving DecidableEq

/-- Model of `VirtualMachine.create_iso`: serialize the three cloud-init
documents (the userdata one prefixed with the literal `#cloud-config`
header line) and package them into an ISO-9660/Joliet image labelled
`cidata`.  The YAML serializer is an opaque parameter. -/
def create_iso (yamlDump : PValDict → String) (metadata userdata netdata : PValDict) : IsoImage :=
  let metadataDoc := yamlDump metadata
  let userdataDoc := "#cloud-config\n" ++ yamlDump userdata
  let netdataDoc := yamlDump netdata
  { interchangeLevel := 3
    joliet := true
    sysIdent := "LINUX"
    volIdent := "cidata"
    files :=
      [ { isoPath := "/USERDATA.;1", jolietPath := "/user-data", content := userdataDoc }
      , { isoPath := "/METADATA.;1", jolietPath := "/meta-data", content := metadataDoc }
      , { isoPath := "/NETWORKCONFIG.;1", jolietPath := "/network-config", content := netdataDoc } ] }

end VirtualMachine

/-! ## Model of `civirt/orchestrate.py` -/

/-- Dict assignment for the compiled-config mapping, whose keys are the
values returned by `vm.get('hostname')` (possibly `None`). -/
def pyConfigSet (d : List (Option PVal × PValDict)) (key : Option PVal) (v : PValDict) :
    List (Option PVal × PValDict) :=
  match d with
  | [] => [(key, v)]
  | (k, w) :: rest => if k = key then (k, v) :: rest else (k, w) :: pyConfigSet rest key v

/-- Model of the `for vm in config['vms']` loop of `_prepareconfig` (file
reading and `import_common` resolution already folded into `common`): each
machine's settings are a deep copy of the common block updated with the
per-machine overrides, stored in the result under the key
`vm.get('hostname')`. -/
def _prepareconfig (common : PValDict) (vms : List PValDict) : List (Option PVal × PValDict) :=
  vms.foldl (fun acc vm => pyConfigSet acc (pyDictGet vm "hostname") (pyUpdate common vm)) []

/-- Key insertion order produced by repeated dict assignment: a new key is
appended, an existing key keeps its position. -/
def insertKeyOnce (ks : List (Option PVal)) (k : Option PVal) : List (Option PVal) :=
  if k ∈ ks then ks else ks ++ [k]

/-- Outcome of one machine inside the `executor` loop: the result of the
`VirtualMachine(vm_settings)` construction (the machine's computed name on
success), and the outcome of `vm.<action>()` when construction succeeded. -/
structure MachineRun where
  ctor : Except String String
  opErr : Option String

/-- Log lines emitted by the `executor` loop. -/
inductive LogEntry where
  | success : String → String → LogEntry
  | failure : String → String → String → LogEntry
deriving DecidableEq

/-- Loop body of `executor`, with the Python local variable `vm` modelled
by `lastVm` (it keeps its previous binding when a constructor raises).  The
exception handler evaluates `vm.name`; when `vm` was never bound this
raises `NameError`, which is not caught and propagates out of `executor`. -/
def executorLoop (action : String) : List MachineRun → Option String → List LogEntry →
    Except String (List LogEntry)
  | [], _, logs => Except.ok logs
  | m :: ms, lastVm, logs =>
    match m.ctor with
    | Except.error e =>
      match lastVm with
      | none => Except.error "NameError"
      | some prev => executorLoop action ms (some prev) (logs ++ [LogEntry.failure prev action e])
    | Except.ok name =>
      match m.opErr with
      | some e => executorLoop action ms (some name) (logs ++ [LogEntry.failure name action e])
      | none => executorLoop action ms (some name) (logs ++ [LogEntry.success name action])

/-- Model of `executor`: iterate the compiled machines in order, catching
and logging per-machine exceptions. -/
def executor (action : String) (runs : List MachineRun) : Except String (List LogEntry) :=
  executorLoop action runs none []

/-- Delete driven from the batch level for a single machine: construct the
`VirtualMachine` record (which resolves the network domain unconditionally)
and only then run `delete`.  A construction failure propagates before any
cleanup or file removal is attempted. -/
def executor_delete (netLookup : String → NetInfo) (s : Settings)
    (env : VirtualMachine.DeleteEnv) : Except String (List VirtualMachine.DEffect) :=
  match VirtualMachine.init netLookup s with
  | Except.error e => Except.error e
  | Except.ok vm =>
    match VirtualMachine.delete vm.name vm.qcow2_path vm.cloudinit_path vm.directory vm.volumes env with
    | (_, some e) => Except.error e
    | (tr, none) => Except.ok tr

/-! ## Heap model of Python object identity

Needed for the deep-copy isolation guarantee of `_prepareconfig`: the
per-machine settings are `copy.deepcopy(common_settings)` updated with the
per-machine dict, and `VirtualMachine.__init__` later mutates the machine's
`userdata` dict in place.  Values are heap objects whose children are
addresses; `writeVal` allocates a fresh copy of a pure value and `readVal`
reads a pure snapshot back (with fuel, since a raw heap could be cyclic). -/

/-- Heap objects: leaves carry values, lists and dicts carry addresses. -/
inductive HObj where
  | hnone : HObj
  | hbool : Bool → HObj
  | hnat : Nat → HObj
  | hstr : String → HObj
  | hlist : List Nat → HObj
  | hdict : List (String × Nat) → HObj
deriving DecidableEq

/-- Lookup in an address/object association list (newest entry first). -/
def hlookup : List (Nat × HObj) → Nat → Option HObj
  | [], _ => none
  | (b, o) :: rest, a => if b = a then some o else hlookup rest a

/-- A heap: the object store plus the next fresh address. -/
structure Heap where
  mem : List (Nat × HObj)
  next : Nat

def Heap.lookup (h : Heap) (a : Nat) : Option HObj := hlookup h.mem a

/-- Overwrite the object stored at an existing address. -/
def Heap.set (h : Heap) (a : Nat) (o : HObj) : Heap := ⟨(a, o) :: h.mem, h.next⟩

/-- Allocate a fresh address holding the given object. -/
def Heap.alloc (h : Heap) (o : HObj) : Nat × Heap :=
  (h.next, ⟨(h.next, o) :: h.mem, h.next + 1⟩)

def emptyHeap : Heap := ⟨[], 0⟩

/-- Lookup of a key in a heap-level dict entry list. -/
def assocGet : List (String × Nat) → String → Option Nat
  | [], _ => none
  | (k, a) :: rest, key => if k = key then some a else assocGet rest key

/-- Python dict item assignment at the heap level: overwrite in place or
append. -/
def assocSet : List (String × Nat) → String → Nat → List (String × Nat)
  | [], key, v => [(key, v)]
  | (k, a) :: rest, key, v =>
    if k = key then (k, v) :: rest else (k, a) :: assocSet rest key v

mutual

/-- Allocate a fresh heap copy of a pure value (children first, then the
node, so a node's address is the last one of its block). -/
def writeVal : PVal → Heap → Nat × Heap
  | PVal.pnone, h => h.alloc HObj.hnone
  | PVal.pbool b, h => h.alloc (HObj.hbool b)
  | PVal.pnat n, h => h.alloc (HObj.hnat n)
  | PVal.pstr s, h => h.alloc (HObj.hstr s)
  | PVal.plist xs, h =>
    let r := writeList xs h
    r.2.alloc (HObj.hlist r.1)
  | PVal.pdict kvs, h =>
    let r := writeDict kvs h
    r.2.alloc (HObj.hdict r.1)

def writeList : PValList → Heap → List Nat × Heap
  | PValList.nil, h => ([], h)
  | PValList.cons v vs, h =>
    let rv := writeVal v h
    let rs := writeList vs rv.2
    (rv.1 :: rs.1, rs.2)

def writeDict : PValDict → Heap → List (String × Nat) × Heap
  | PValDict.nil, h => ([], h)
  | PValDict.cons k v vs, h =>
    let rv := writeVal v h
    let rs := writeDict vs rv.2
    ((k, rv.1) :: rs.1, rs.2)

end

/-- Read back a list of element addresses with the given element reader. -/
def readAddrs (rv : Nat → Option PVal) : List Nat → Option PValList
  | [] => some PValList.nil
  | a :: as =>
    match rv a, readAddrs rv as with
    | some v, some vs => some (PValList.cons v vs)
    | _, _ => none

/-- Read back a dict entry list with the given element reader. -/
def readEntries (rv : Nat → Option PVal) : List (String × Nat) → Option PValDict
  | [] => some PValDict.nil
  | (k, a) :: es =>
    match rv a, readEntries rv es with
    | some v, some vs => some (PValDict.cons k v vs)
    | _, _ => none

/-- Read a pure snapshot of the object at an address (fuel bounds the
nesting depth explored, so that reading is total even on ill-formed
heaps). -/
def readVal : Nat → Heap → Nat → Option PVal
  | 0, _, _ => none
  | fuel + 1, h, a =>
    match h.lookup a with
    | some HObj.hnone => some PVal.pnone
    | some (HObj.hbool b) => some (PVal.pbool b)
    | some (HObj.hnat n) => some (PVal.pnat n)
    | some (HObj.hstr s) => some (PVal.pstr s)
    | some (HObj.hlist as) => (readAddrs (readVal fuel h) as).map PVal.plist
    | some (HObj.hdict es) => (readEntries (readVal fuel h) es).map PVal.pdict
    | none => none

/-- Snapshot of a list of element addresses at the given fuel. -/
def readList (fuel : Nat) (h : Heap) (as : List Nat) : Option PValList :=
  readAddrs (readVal fuel h) as

/-- Snapshot of a dict entry list at the given fuel. -/
def readDict (fuel : Nat) (h : Heap) (es : List (String × Nat)) : Option PValDict :=
  readEntries (readVal fuel h) es

mutual

/-- Number of heap cells a value occupies. -/
def psize : PVal → Nat
  | PVal.plist xs => psizeL xs + 1
  | PVal.pdict kvs => psizeD kvs + 1
  | _ => 1

def psizeL : PValList → Nat
  | PValList.nil => 0
  | PValList.cons v vs => psize v + psizeL vs

def psizeD : PValDict → Nat
  | PValDict.nil => 0
  | PValDict.cons _ v vs => psize v + psizeD vs

end

mutual

/-- Nesting depth of a value (the fuel needed to read it back). -/
def pdepth : PVal → Nat
  | PVal.plist xs => pdepthL xs + 1
  | PVal.pdict kvs => pdepthD kvs + 1
  | _ => 1

def pdepthL : PValList → Nat
  | PValList.nil => 0
  | PValList.cons v vs => max (pdepth v) (pdepthL vs)

def pdepthD : PValDict → Nat
  | PValDict.nil => 0
  | PValDict.cons _ v vs => max (pdepth v) (pdepthD vs)

end

/-- Address of the value stored under a key of a heap dict object. -/
def Heap.dictGetAddr (h : Heap) (a : Nat) (k : String) : Option Nat :=
  match h.lookup a with
  | some (HObj.hdict es) => assocGet es k
  | _ => none

/-- In-place item assignment on a heap dict object. -/
def Heap.dictSetField (h : Heap) (a : Nat) (k : String) (v : Nat) : Heap :=
  match h.lookup a with
  | some (HObj.hdict es) => h.set a (HObj.hdict (assocSet es k v))
  | _ => h

/-- Python `d1.update(d2)` at the heap level: assign every entry of the
dict object at `src` into the dict object at `dst`, sharing the value
addresses. -/
def Heap.dictUpdate (h : Heap) (dst src : Nat) : Heap :=
  match h.lookup dst, h.lookup src with
  | some (HObj.hdict d1), some (HObj.hdict d2) =>
    h.set dst (HObj.hdict (d2.foldl (fun acc kv => assocSet acc kv.1 kv.2) d1))
  | _, _ => h

/-- Truthiness of a heap object (`if userdata_nameservers:`). -/
def pyTruthyObj : HObj → Bool
  | HObj.hnone => false
  | HObj.hbool b => b
  | HObj.hnat n => n != 0
  | HObj.hstr s => s != ""
  | HObj.hlist as => !as.isEmpty
  | HObj.hdict es => !es.isEmpty

/-- One iteration of the `for vm in config['vms']` loop of
`_prepareconfig`, at the heap level: `copy.deepcopy(common_settings)`
(read a snapshot, write a fresh copy) followed by
`vm_settings.update(vm)`. -/
def prepareOne (fuel : Nat) (h : Heap) (c vmAddr : Nat) : Option (Nat × Heap) :=
  match readVal fuel h c with
  | none => none
  | some v =>
    let r := writeVal v h
    some (r.1, r.2.dictUpdate r.1 vmAddr)

/-- The whole `vms` loop of `_prepareconfig` at the heap level, returning
each machine's settings address. -/
def prepareMachines (fuel : Nat) (c : Nat) : List Nat → Heap → Option (List Nat × Heap)
  | [], h => some ([], h)
  | vm :: vms, h =>
    match prepareOne fuel h c vm with
    | none => none
    | some (s, h₁) =>
      match prepareMachines fuel c vms h₁ with
      | none => none
      | some (ss, h₂) => some (s :: ss, h₂)

/-- Lines 53-61 of `VirtualMachine.__init__`: build the `resolv_conf`
dict (a `nameservers` entry when `settings.get('nameservers')` is truthy,
plus `domain` and `searchdomains` entries when the domain is truthy) and
allocate it, together with the fresh domain string and searchdomains
list it references.  Returns the address of the new dict. -/
def allocResolv (h : Heap) (s : Nat) (netDomain : String) : Nat × Heap :=
  let nsTruthy := match h.dictGetAddr s "nameservers" with
    | some na =>
      match h.lookup na with
      | some o => pyTruthyObj o
      | none => false
    | none => false
  let rd := h.alloc (HObj.hstr netDomain)
  let rs := rd.2.alloc (HObj.hlist [rd.1])
  let es₀ : List (String × Nat) := match h.dictGetAddr s "nameservers", nsTruthy with
    | some na, true => [("nameservers", na)]
    | _, _ => []
  let es₁ := es₀ ++ (if netDomain = "" then [] else [("domain", rd.1), ("searchdomains", rs.1)])
  rs.2.alloc (HObj.hdict es₁)

/-- Line 66: `self.userdata['hostname'] = self.hostname` — the stored
value is the address of the settings' own hostname object. -/
def setHostname (h : Heap) (s u : Nat) : Heap :=
  match h.dictGetAddr s "hostname" with
  | some ha => h.dictSetField u "hostname" ha
  | none => h

/-- The fqdn string of line 41, allocated fresh when assigned at line 67. -/
def allocFqdn (h : Heap) (s : Nat) (netDomain : String) : Nat × Heap :=
  let fq := match h.dictGetAddr s "hostname" with
    | some ha =>
      match h.lookup ha with
      | some (HObj.hstr hs) => hs ++ "." ++ netDomain
      | _ => ""
    | none => ""
  h.alloc (HObj.hstr fq)

/-- Line 32: `self.ssh_keys = settings.get('ssh_keys', [])` — the address
of the settings' ssh_keys object, or a freshly allocated empty list. -/
def sshKeysAddr (h : Heap) (s : Nat) : Nat × Heap :=
  match h.dictGetAddr s "ssh_keys" with
  | some sa => (sa, h)
  | none => h.alloc (HObj.hlist [])

/-- Lines 53-68 of `VirtualMachine.__init__` given the address `u` of the
machine's userdata dict: assign `manage_resolv_conf`, `resolv_conf`,
`hostname`, `fqdn` and `ssh_authorized_keys` into the object at `u`.
Immutable leaf values (strings, `True`) are modelled as fresh
allocations. -/
def initMutateCore (h : Heap) (s u : Nat) (netDomain : String) : Heap :=
  let rr := allocResolv h s netDomain
  let rt := rr.2.alloc (HObj.hbool true)
  let h₅ := rt.2.dictSetField u "manage_resolv_conf" rt.1
  let h₆ := h₅.dictSetField u "resolv_conf" rr.1
  let h₇ := setHostname h₆ s u
  let rf := allocFqdn h₇ s netDomain
  let h₉ := rf.2.dictSetField u "fqdn" rf.1
  let rk := sshKeysAddr h₉ s
  rk.2.dictSetField u "ssh_authorized_keys" rk.1

/-- The in-place mutation of one machine's `userdata` dict performed by
`VirtualMachine.__init__` (lines 53-68), keyed on `settings['userdata']`.
Reads of settings entries are placed at their use sites. -/
def initMutate (h : Heap) (s : Nat) (netDomain : String) : Heap :=
  match h.dictGetAddr s "userdata" with
  | none => h
  | some u => initMutateCore h s u netDomain

/-! ## Theorems -/

namespace VirtualMachine

/-- Claim C4 counterexample: a record whose overlay disk already exists at
the target path but whose backing disk is missing.  Contrary to the claim,
`create_disk` does not return successfully: the backing-disk check runs
first and raises `BackingDiskException` even though the overlay exists. -/
theorem claim_C4_counterexample :
    create_disk "/images/base.qcow2" "/out/default_vm1.qcow2" none false true true
      = ([], some "BackingDiskException") := rfl

/-- Claim C4, amended: the overlay-exists short-circuit applies only after
the backing-disk check.  If the backing disk is missing, `create_disk`
raises `BackingDiskException` regardless of whether the overlay exists; if
the backing disk exists and the overlay already exists, it returns
successfully without invoking the clone command. -/
theorem claim_C4_amended (bdisk path : String) (size : Option Nat) (ovl cloneOk : Bool) :
    create_disk bdisk path size false ovl cloneOk = ([], some "BackingDiskException")
    ∧ create_disk bdisk path size true true cloneOk = ([], none) := ⟨rfl, rfl⟩

/-- Claim C3: when the instance probe reports the instance as already
defined, `create` returns success immediately after the probe; the only
effects performed are the optional working-directory creation and the
probe itself — no disk clone, descriptor generation, define, iso build,
attach, start or metadata command. -/
theorem claim_C3 (bdisk qcow2Path : String) (size : Option Nat) (env : CreateEnv)
    (h : env.instanceDefined = true) :
    create bdisk qcow2Path size env =
      ((if env.dirExists then [] else [CEffect.makedirs]) ++ [CEffect.probeInstance], none) := by
  unfold create
  simp [h]

/-- Witness for C3 at a concrete environment. -/
theorem claim_C3_witness :
    (⟨true, true, true, false, true, true, true, true, true, true, true, true⟩ :
        CreateEnv).instanceDefined = true
    ∧ create "/images/base.qcow2" "/out/x.qcow2" none
        ⟨true, true, true, false, true, true, true, true, true, true, true, true⟩
      = ([CEffect.probeInstance], none) :=
  ⟨rfl, claim_C3 "/images/base.qcow2" "/out/x.qcow2" none
    ⟨true, true, true, false, true, true, true, true, true, true, true, true⟩ rfl⟩

/-- Claim C8: for every payload, `create_iso` produces an image with
interchange level 3, Joliet enabled, system identifier LINUX and volume
label cidata, containing exactly the three documents under both their
short ISO names and Joliet names, and the userdata document's first line
is literally `#cloud-config`. -/
theorem claim_C8 (yamlDump : PValDict → String) (metadata userdata netdata : PValDict) :
    (create_iso yamlDump metadata userdata netdata).interchangeLevel = 3
    ∧ (create_iso yamlDump metadata userdata netdata).joliet = true
    ∧ (create_iso yamlDump metadata userdata netdata).sysIdent = "LINUX"
    ∧ (create_iso yamlDump metadata userdata netdata).volIdent = "cidata"
    ∧ (create_iso yamlDump metadata userdata netdata).files.map
        (fun f => (f.isoPath, f.jolietPath))
      = [("/USERDATA.;1", "/user-data"), ("/METADATA.;1", "/meta-data"),
         ("/NETWORKCONFIG.;1", "/network-config")]
    ∧ (create_iso yamlDump metadata userdata netdata).files.map IsoFile.content
      = ["#cloud-config\n" ++ yamlDump userdata, yamlDump metadata, yamlDump netdata]
    ∧ firstLine ("#cloud-config\n" ++ yamlDump userdata) = "#cloud-config" :=
  ⟨rfl, rfl, rfl, rfl, rfl, rfl, rfl⟩

end VirtualMachine

namespace VirtualMachine

/-- Every effect of the volume-removal loop is a file removal. -/
theorem delete_vols_trace (name d : String) (env : DeleteEnv) (vols : List Volume) :
    ∀ (incr : Nat), ∀ x ∈ (delete_vols name d env vols incr).1, ∃ p, x = DEffect.removeFile p := by
  induction vols with
  | nil => intro incr x hx; simp [delete_vols] at hx
  | cons v vs ih =>
    intro incr x hx
    cases hn : v.name with
    | some s =>
      rw [delete_vols, hn] at hx
      exact ih incr x hx
    | none =>
      rw [delete_vols, hn] at hx
      by_cases hex : env.volFileExists ((v.dir.getD d) ++ "/" ++ name ++ "_disk" ++ toString incr ++ ".qcow2") = true
      · simp only [hex, if_true, delete_file] at hx
        by_cases hok : env.removeOk ((v.dir.getD d) ++ "/" ++ name ++ "_disk" ++ toString incr ++ ".qcow2") = true
        · simp only [hok, if_true] at hx
          rcases List.mem_append.mp hx with h1 | h2
          · exact ⟨_, List.mem_singleton.mp h1⟩
          · exact ih (incr + 1) x h2
        · simp only [eq_false_of_ne_true hok, if_false] at hx
          exact ⟨_, List.mem_singleton.mp hx⟩
      · simp only [eq_false_of_ne_true hex, if_false] at hx
        exact ih (incr + 1) x hx
end VirtualMachine

namespace VirtualMachine

/-- Membership in the trace of a sequential composition. -/
theorem mem_andThenD (x : DEffect) (a : List DEffect × Option String)
    (b : Unit → List DEffect × Option String) :
    x ∈ (andThenD a b).1 ↔ x ∈ a.1 ∨ (a.2 = none ∧ x ∈ (b ()).1) := by
  rcases a with ⟨t, e⟩
  cases e with
  | some e => simp [andThenD]
  | none => simp [andThenD]

/-- Claim C1, amended: the stop-then-undefine hypervisor cleanup of
`delete` is performed exactly when the external existence query reports
the domain as currently defined, i.e. when the `virsh dumpxml` exit code
returned by `domain_is_defined` is 0 (the `not` of a zero exit code being
true in Python); when the exit code is non-zero the cleanup is skipped. -/
theorem claim_C1_amended (name qcow2Path isoPath directory : String)
    (vols : List Volume) (env : DeleteEnv) :
    (DEffect.virshDestroy ∈ (delete name qcow2Path isoPath directory vols env).1
      ↔ domain_is_defined env.dumpxmlRc = 0)
    ∧ (DEffect.virshUndefine ∈ (delete name qcow2Path isoPath directory vols env).1
      ↔ domain_is_defined env.dumpxmlRc = 0) := by
  have ht3 := delete_vols_trace name directory env vols 1
  have hnd : DEffect.virshDestroy ∉ (delete_vols name directory env vols 1).1 := by
    intro hmem
    rcases ht3 _ hmem with ⟨p, hp⟩
    cases hp
  have hnu : DEffect.virshUndefine ∉ (delete_vols name directory env vols 1).1 := by
    intro hmem
    rcases ht3 _ hmem with ⟨p, hp⟩
    cases hp
  have hq : ∀ x : DEffect, (∀ p, x ≠ DEffect.removeFile p) →
      x ∉ (if env.qcow2Exists then delete_file qcow2Path (env.removeOk qcow2Path) else ([], none)).1 := by
    intro x hx
    cases hqe : env.qcow2Exists <;> simp [delete_file, hx]
  have hi : ∀ x : DEffect, (∀ p, x ≠ DEffect.removeFile p) →
      x ∉ (if env.isoExists then delete_file isoPath (env.removeOk isoPath) else ([], none)).1 := by
    intro x hx
    cases hie : env.isoExists <;> simp [delete_file, hx]
  constructor
  · rw [delete, mem_andThenD, mem_andThenD, mem_andThenD]
    simp only [hnd, and_false, or_false,
      hq DEffect.virshDestroy (fun p h => by cases h),
      hi DEffect.virshDestroy (fun p h => by cases h), false_and, false_or, and_false, or_false]
    by_cases h0 : env.dumpxmlRc = 0 <;> simp [pyNot, domain_is_defined, h0]
  · rw [delete, mem_andThenD, mem_andThenD, mem_andThenD]
    simp only [hnu, and_false, or_false,
      hq DEffect.virshUndefine (fun p h => by cases h),
      hi DEffect.virshUndefine (fun p h => by cases h), false_and, false_or, and_false, or_false]
    by_cases h0 : env.dumpxmlRc = 0 <;> simp [pyNot, domain_is_defined, h0]

/-- Claim C1 counterexample: a domain whose existence query exits with
code 0, i.e. reports the domain as currently defined.  Contrary to the
claim, the stop-then-undefine cleanup is performed (`not 0` is true in
Python), not skipped. -/
theorem claim_C1_counterexample :
    domain_is_defined 0 = 0
    ∧ (delete "default_vm1" "/out/default_vm1.qcow2" "/out/default_vm1.iso" "/out" []
        ⟨0, false, false, fun _ => false, fun _ => true⟩).1
      = [DEffect.virshDestroy, DEffect.virshUndefine] := ⟨rfl, rfl⟩

end VirtualMachine

/-- Key list produced by one compiled-config dict assignment. -/
theorem pyConfigSet_keys (d : List (Option PVal × PValDict)) (k : Option PVal) (v : PValDict) :
    (pyConfigSet d k v).map Prod.fst = insertKeyOnce (d.map Prod.fst) k := by
  induction d with
  | nil => simp [pyConfigSet, insertKeyOnce]
  | cons e rest ih =>
    rcases e with ⟨k0, v0⟩
    by_cases hk : k0 = k
    · subst hk
      simp [pyConfigSet, insertKeyOnce]
    · simp only [pyConfigSet, if_neg hk, List.map_cons, ih, insertKeyOnce, List.mem_cons]
      by_cases hm : k ∈ rest.map Prod.fst
      · simp [hm, hk]
      · have hk2 : ¬k = k0 := fun h => hk h.symm
        simp [hm, hk, hk2]

/-- Keys of the compiled configuration, accumulated over the machine loop:
each machine contributes its `vm.get('hostname')` value (appended once). -/
theorem prepareconfig_keys_aux (vms : List PValDict) (common : PValDict) :
    ∀ acc : List (Option PVal × PValDict),
      (vms.foldl (fun acc vm => pyConfigSet acc (pyDictGet vm "hostname") (pyUpdate common vm)) acc).map Prod.fst
        = vms.foldl (fun ks vm => insertKeyOnce ks (pyDictGet vm "hostname")) (acc.map Prod.fst) := by
  induction vms with
  | nil => intro acc; rfl
  | cons vm rest ih =>
    intro acc
    simp only [List.foldl_cons, ih, pyConfigSet_keys]

/-- Claim C2, amended: the configuration compiler keys its result by the
per-machine `hostname` value alone (not `network + "_" + hostname`); a
repeated hostname keeps its first position and is overwritten, so two
machines with the same hostname on different networks collide into a
single entry. -/
theorem claim_C2_amended (common : PValDict) (vms : List PValDict) :
    (_prepareconfig common vms).map Prod.fst
      = vms.foldl (fun ks vm => insertKeyOnce ks (pyDictGet vm "hostname")) [] :=
  prepareconfig_keys_aux vms common []

/-- Claim C2 counterexample: two machines with hostname `h` on networks
`net1` and `net2`.  The compiled mapping has the single key `h` (the
second machine overwrote the first), not the two claimed keys `net1_h`
and `net2_h`. -/
theorem claim_C2_counterexample :
    (_prepareconfig PValDict.nil
        [PValDict.cons "hostname" (PVal.pstr "h") (PValDict.cons "network" (PVal.pstr "net1") PValDict.nil),
         PValDict.cons "hostname" (PVal.pstr "h") (PValDict.cons "network" (PVal.pstr "net2") PValDict.nil)]).map
      Prod.fst = [some (PVal.pstr "h")]
    ∧ ([some (PVal.pstr "h")] : List (Option PVal))
        ≠ [some (PVal.pstr "net1_h"), some (PVal.pstr "net2_h")] :=
  ⟨rfl, by simp⟩

/-- Once some constructor has succeeded, the executor loop never raises:
every later exception is caught and logged. -/
theorem executorLoop_some_ok (action : String) (runs : List MachineRun) :
    ∀ (prev : String) (logs : List LogEntry),
      ∃ out, executorLoop action runs (some prev) logs = Except.ok out := by
  induction runs with
  | nil => intro prev logs; exact ⟨logs, rfl⟩
  | cons m ms ih =>
    intro prev logs
    cases hc : m.ctor with
    | error e =>
      simpa [executorLoop, hc] using ih prev (logs ++ [LogEntry.failure prev action e])
    | ok n =>
      cases ho : m.opErr with
      | some e =>
        simpa [executorLoop, hc, ho] using ih n (logs ++ [LogEntry.failure n action e])
      | none =>
        simpa [executorLoop, hc, ho] using ih n (logs ++ [LogEntry.success n action])

/-- Claim C5, amended: the executor finishes (catching and logging every
per-machine failure) if and only if the batch is empty or the first
machine's record constructor does not raise.  When the constructor of the
very first machine raises, the handler's `vm.name` reference hits the
unbound loop variable and the resulting NameError propagates out of the
executor. -/
theorem claim_C5_amended (action : String) (runs : List MachineRun) :
    (∃ logs, executor action runs = Except.ok logs)
      ↔ (runs = [] ∨ ∃ m ms n, runs = m :: ms ∧ m.ctor = Except.ok n) := by
  constructor
  · rintro ⟨logs, hr⟩
    cases runs with
    | nil => exact Or.inl rfl
    | cons m ms =>
      refine Or.inr ⟨m, ms, ?_⟩
      cases hc : m.ctor with
      | error e =>
        rw [executor, executorLoop, hc] at hr
        cases hr
      | ok n => exact ⟨n, rfl, rfl⟩
  · rintro (rfl | ⟨m, ms, n, rfl, hc⟩)
    · exact ⟨[], rfl⟩
    · rw [executor, executorLoop, hc]
      cases ho : m.opErr with
      | some e => exact executorLoop_some_ok action ms n [LogEntry.failure n action e]
      | none => exact executorLoop_some_ok action ms n [LogEntry.success n action]

/-- Claim C5 counterexample: a batch whose first machine's record
constructor raises.  Contrary to the claim, the failure is not contained:
the `except` handler itself raises NameError (the loop variable `vm` was
never bound) and the executor propagates it. -/
theorem claim_C5_counterexample :
    executor "create" [⟨Except.error "KeyError: size", none⟩] = Except.error "NameError" := rfl

namespace VirtualMachine

/-- The volume-removal loop of `delete` reconstructs exactly the
positional paths described by the specification: its guard is
`vol_name is None`. -/
theorem delete_unnamed_eq_spec (n d : String) (vols : List Volume) :
    ∀ i, delete_unnamed_vol_paths n d vols i = spec_positional_paths n d vols i := by
  induction vols with
  | nil => intro i; rfl
  | cons v vs ih =>
    intro i
    cases hn : v.name with
    | some s =>
      simp [delete_unnamed_vol_paths, hn, spec_positional_paths, List.filter, ih i]
    | none =>
      simp [delete_unnamed_vol_paths, hn, spec_positional_paths, List.filter,
        List.enumFrom, ih (i + 1)]

/-- Under the hypothesis that no volume carries an explicit empty-string
name, the positional paths produced inside `create_vm` (guard
`if not vol_name:`) coincide with the specification's reconstruction. -/
theorem create_unnamed_eq_spec (n d : String) (vols : List Volume)
    (h : ∀ v ∈ vols, v.name ≠ some "") :
    ∀ i, create_vm_unnamed_paths n d vols i = spec_positional_paths n d vols i := by
  induction vols with
  | nil => intro i; rfl
  | cons v vs ih =>
    intro i
    have hv : v.name ≠ some "" := h v (List.mem_cons_self v vs)
    have hvs : ∀ w ∈ vs, w.name ≠ some "" := fun w hw => h w (List.mem_cons_of_mem v hw)
    cases hn : v.name with
    | some s =>
      have hs : s ≠ "" := by
        intro hs0
        exact hv (by rw [hn, hs0])
      simp [create_vm_unnamed_paths, hn, hs, spec_positional_paths, List.filter, ih hvs i]
    | none =>
      simp [create_vm_unnamed_paths, hn, spec_positional_paths, List.filter,
        List.enumFrom, ih hvs (i + 1)]

/-- Each positional path of an unnamed volume appears (with the volume's
size suffix) as a `--disk` clause of the `virt-install` arguments built by
`create_vm`. -/
theorem create_unnamed_clause_mem (n d : String) (vols : List Volume) :
    ∀ i p, p ∈ create_vm_unnamed_paths n d vols i →
      ∃ sz, ["--disk", p ++ ",format=qcow2,bus=virtio,size=" ++ sz]
        ∈ create_vm_extra_disk_args n d vols i := by
  induction vols with
  | nil => intro i p hp; simp [create_vm_unnamed_paths] at hp
  | cons v vs ih =>
    intro i p hp
    by_cases hn : v.name.getD "" = ""
    · rw [create_vm_unnamed_paths, if_pos hn] at hp
      rcases List.mem_cons.mp hp with hp | hp
      · subst hp
        rw [create_vm_extra_disk_args, if_pos hn]
        refine ⟨v.size.getD "40", List.mem_cons.mpr (Or.inl ?_)⟩
        simp [vol_clause, String.append_assoc]
      · rcases ih (i + 1) p hp with ⟨sz, hsz⟩
        refine ⟨sz, ?_⟩
        rw [create_vm_extra_disk_args, if_pos hn]
        exact List.mem_cons_of_mem _ hsz
    · rw [create_vm_unnamed_paths, if_neg hn] at hp
      rcases ih i p hp with ⟨sz, hsz⟩
      refine ⟨sz, ?_⟩
      rw [create_vm_extra_disk_args, if_neg hn]
      exact List.mem_cons_of_mem _ hsz

end VirtualMachine

namespace VirtualMachine

/-- Claim C7, amended: restricted to volume lists without explicit
empty-string names (absent and null names are unnamed; any other
configured name is non-empty), each unnamed volume resolves to the
positional name `name_diskN` — N starting at 1 and incrementing only
across unnamed volumes, in declaration order, skipping named ones — its
`--disk` clause carries exactly that path, and the delete loop
reconstructs exactly the same file paths. -/
theorem claim_C7_amended (n d : String) (vols : List Volume)
    (h : ∀ v ∈ vols, v.name ≠ some "") :
    create_vm_unnamed_paths n d vols 1 = spec_positional_paths n d vols 1
    ∧ delete_unnamed_vol_paths n d vols 1 = create_vm_unnamed_paths n d vols 1
    ∧ ∀ p ∈ create_vm_unnamed_paths n d vols 1,
        ∃ sz, ["--disk", p ++ ",format=qcow2,bus=virtio,size=" ++ sz]
          ∈ create_vm_extra_disk_args n d vols 1 := by
  refine ⟨create_unnamed_eq_spec n d vols h 1, ?_, create_unnamed_clause_mem n d vols 1⟩
  rw [create_unnamed_eq_spec n d vols h 1, delete_unnamed_eq_spec n d vols 1]

/-- Witness for the amended C7 at the specification's own example
(`volumes: [{size:10}, {name:"data", size:20}, {size:30}]`): the unnamed
volumes resolve to `web_disk1` and `web_disk2`, and delete reconstructs
the same two paths. -/
theorem claim_C7_witness :
    (∀ v ∈ [(⟨none, some "10", none⟩ : Volume), ⟨some "data", some "20", none⟩,
        ⟨none, some "30", none⟩], v.name ≠ some "")
    ∧ (create_vm_unnamed_paths "web" "/out"
          [⟨none, some "10", none⟩, ⟨some "data", some "20", none⟩, ⟨none, some "30", none⟩] 1
        = spec_positional_paths "web" "/out"
          [⟨none, some "10", none⟩, ⟨some "data", some "20", none⟩, ⟨none, some "30", none⟩] 1
      ∧ delete_unnamed_vol_paths "web" "/out"
          [⟨none, some "10", none⟩, ⟨some "data", some "20", none⟩, ⟨none, some "30", none⟩] 1
        = create_vm_unnamed_paths "web" "/out"
          [⟨none, some "10", none⟩, ⟨some "data", some "20", none⟩, ⟨none, some "30", none⟩] 1
      ∧ ∀ p ∈ create_vm_unnamed_paths "web" "/out"
          [⟨none, some "10", none⟩, ⟨some "data", some "20", none⟩, ⟨none, some "30", none⟩] 1,
          ∃ sz, ["--disk", p ++ ",format=qcow2,bus=virtio,size=" ++ sz]
            ∈ create_vm_extra_disk_args "web" "/out"
              [⟨none, some "10", none⟩, ⟨some "data", some "20", none⟩, ⟨none, some "30", none⟩] 1) :=
  ⟨by decide, claim_C7_amended "web" "/out"
    [⟨none, some "10", none⟩, ⟨some "data", some "20", none⟩, ⟨none, some "30", none⟩]
    (by decide)⟩

/-- Claim C7 counterexample: a volume with an explicit empty-string name
followed by a volume with no name.  `create_vm` treats the empty-string
name as unnamed (`if not vol_name:`), so the nameless volume resolves to
`n_disk2`, while the delete loop (guard `is None`) skips the empty-string
volume and reconstructs only `n_disk1` — the created path `/d/n_disk2.qcow2`
is never removed, so delete does not reconstruct exactly the created
positional paths. -/
theorem claim_C7_counterexample :
    create_vm_unnamed_paths "n" "/d" [⟨some "", none, none⟩, ⟨none, none, none⟩] 1
      = ["/d/n_disk1.qcow2", "/d/n_disk2.qcow2"]
    ∧ delete_unnamed_vol_paths "n" "/d" [⟨some "", none, none⟩, ⟨none, none, none⟩] 1
      = ["/d/n_disk1.qcow2"] := ⟨rfl, rfl⟩

end VirtualMachine

/-- Claim C9 counterexample: settings supplying the four claimed required
fields (`hostname`, `variant`, `directory`, `backingdisk`) on a network
that reports a domain, but omitting `size`.  Construction fails with
`KeyError: size` because `__init__` indexes `settings['size']` directly —
the `size` key cannot be omitted. -/
theorem claim_C9_counterexample :
    VirtualMachine.init (fun _ => ⟨some "lan", none, none, none, none⟩)
      ⟨some "vm1", none, none, some "debian10", none, none, none, none, none, none,
        some "/out", some "/images/base.qcow2", none⟩
      = Except.error "KeyError: size" := rfl

/-- Claim C9, amended: record construction additionally requires the
`size` and `userdata` keys to be present (`size` may be null, `userdata`
must be a mapping); with `hostname`, `variant`, `directory`,
`backingdisk`, `size` and `userdata` present and the network reporting a
non-empty domain, construction succeeds. -/
theorem claim_C9_amended (netLookup : String → NetInfo) (s : Settings)
    (hn : String) (vr : String) (dir : String) (bd : String) (sz : Option Nat)
    (ud : PValDict) (dom : String)
    (h1 : s.hostname = some hn) (h2 : s.variant = some vr) (h3 : s.directory = some dir)
    (h4 : s.backingdisk = some bd) (h5 : s.size = some sz) (h6 : s.userdata = some (some ud))
    (h7 : (netLookup (s.network.getD "default")).domain = some dom) (h8 : dom ≠ "") :
    ∃ vm, VirtualMachine.init netLookup s = Except.ok vm := by
  unfold VirtualMachine.init VirtualMachine.get_net
  rw [h1, h2, h3, h4, h5, h6]
  simp [pyIndex, h7, h8, Bind.bind, Except.bind]

/-- Witness for the amended C9 at a concrete configuration. -/
theorem claim_C9_amended_witness :
    ∃ vm, VirtualMachine.init (fun _ => ⟨some "lan", none, none, none, none⟩)
      ⟨some "vm1", none, none, some "debian10", none, none, none, none,
        some (some PValDict.nil), none, some "/out", some "/images/base.qcow2", some none⟩
      = Except.ok vm :=
  claim_C9_amended (fun _ => ⟨some "lan", none, none, none, none⟩)
    ⟨some "vm1", none, none, some "debian10", none, none, none, none,
      some (some PValDict.nil), none, some "/out", some "/images/base.qcow2", some none⟩
    "vm1" "debian10" "/out" "/images/base.qcow2" none PValDict.nil "lan"
    rfl rfl rfl rfl rfl rfl rfl (by decide)

/-- Claim C10: when the machine's virtual network reports no domain name,
the delete path fails during record construction — `get_net` runs
unconditionally inside `__init__`, before any hypervisor cleanup or file
removal — so the batch-level delete returns the construction error and
produces no effects; such an instance can never be deleted through the
tool. -/
theorem claim_C10 (netLookup : String → NetInfo) (s : Settings)
    (env : VirtualMachine.DeleteEnv) (hn vr dir : String)
    (h1 : s.hostname = some hn) (h2 : s.variant = some vr) (h3 : s.directory = some dir)
    (h4 : (netLookup (s.network.getD "default")).domain = none) :
    executor_delete netLookup s env
      = Except.error ("ERROR: No domain name configured for network " ++ s.network.getD "default") := by
  unfold executor_delete
  unfold VirtualMachine.init VirtualMachine.get_net
  rw [h1, h2, h3]
  simp [pyIndex, h4, Bind.bind, Except.bind]

/-- Witness for C10 at a concrete configuration and environment. -/
theorem claim_C10_witness :
    executor_delete (fun _ => ⟨none, none, none, none, none⟩)
      ⟨some "vm1", none, none, some "debian10", none, none, none, none, none, none,
        some "/out", some "/images/base.qcow2", some none⟩
      ⟨0, true, true, fun _ => true, fun _ => true⟩
      = Except.error "ERROR: No domain name configured for network default" :=
  claim_C10 (fun _ => ⟨none, none, none, none, none⟩)
    ⟨some "vm1", none, none, some "debian10", none, none, none, none, none, none,
      some "/out", some "/images/base.qcow2", some none⟩
    ⟨0, true, true, fun _ => true, fun _ => true⟩
    "vm1" "debian10" "/out" rfl rfl rfl rfl

/-! ## Heap lemmas for the deep-copy isolation claim -/

theorem readVal_succ (fuel : Nat) (h : Heap) (a : Nat) :
    readVal (fuel + 1) h a
      = match h.lookup a with
        | some HObj.hnone => some PVal.pnone
        | some (HObj.hbool b) => some (PVal.pbool b)
        | some (HObj.hnat n) => some (PVal.pnat n)
        | some (HObj.hstr s) => some (PVal.pstr s)
        | some (HObj.hlist as) => (readList fuel h as).map PVal.plist
        | some (HObj.hdict es) => (readDict fuel h es).map PVal.pdict
        | none => none := rfl

theorem readList_nil (fuel : Nat) (h : Heap) : readList fuel h [] = some PValList.nil := rfl

theorem readList_cons (fuel : Nat) (h : Heap) (a : Nat) (as : List Nat) :
    readList fuel h (a :: as)
      = match readVal fuel h a, readList fuel h as with
        | some v, some vs => some (PValList.cons v vs)
        | _, _ => none := rfl

theorem readDict_nil (fuel : Nat) (h : Heap) : readDict fuel h [] = some PValDict.nil := rfl

theorem readDict_cons (fuel : Nat) (h : Heap) (k : String) (a : Nat) (es : List (String × Nat)) :
    readDict fuel h ((k, a) :: es)
      = match readVal fuel h a, readDict fuel h es with
        | some v, some vs => some (PValDict.cons k v vs)
        | _, _ => none := rfl

theorem Heap.lookup_set (h : Heap) (a b : Nat) (o : HObj) :
    (h.set a o).lookup b = if a = b then some o else h.lookup b := rfl

theorem Heap.lookup_alloc (h : Heap) (o : HObj) (b : Nat) :
    (h.alloc o).2.lookup b = if h.next = b then some o else h.lookup b := rfl

theorem Heap.alloc_next (h : Heap) (o : HObj) : (h.alloc o).2.next = h.next + 1 := rfl

theorem Heap.alloc_fst (h : Heap) (o : HObj) : (h.alloc o).1 = h.next := rfl

theorem Heap.set_next (h : Heap) (a : Nat) (o : HObj) : (h.set a o).next = h.next := rfl

theorem Heap.lookup_alloc_lt (h : Heap) (o : HObj) (b : Nat) (hb : b < h.next) :
    (h.alloc o).2.lookup b = h.lookup b := by
  rw [Heap.lookup_alloc, if_neg (by omega)]

theorem Heap.dictSetField_next (h : Heap) (a : Nat) (k : String) (v : Nat) :
    (h.dictSetField a k v).next = h.next := by
  unfold Heap.dictSetField
  cases h.lookup a with
  | none => rfl
  | some o => cases o <;> rfl

theorem Heap.dictSetField_lookup_ne (h : Heap) (a : Nat) (k : String) (v : Nat) (b : Nat)
    (hne : a ≠ b) : (h.dictSetField a k v).lookup b = h.lookup b := by
  unfold Heap.dictSetField
  cases h.lookup a with
  | none => rfl
  | some o =>
    cases o <;> try rfl
    rw [Heap.lookup_set, if_neg hne]

theorem Heap.dictUpdate_next (h : Heap) (dst src : Nat) :
    (h.dictUpdate dst src).next = h.next := by
  unfold Heap.dictUpdate
  cases h.lookup dst with
  | none => rfl
  | some o =>
    cases o <;> try rfl
    cases h.lookup src with
    | none => rfl
    | some o2 => cases o2 <;> rfl

theorem Heap.dictUpdate_lookup_ne (h : Heap) (dst src b : Nat) (hne : dst ≠ b) :
    (h.dictUpdate dst src).lookup b = h.lookup b := by
  unfold Heap.dictUpdate
  cases h.lookup dst with
  | none => rfl
  | some o =>
    cases o <;> try rfl
    cases h.lookup src with
    | none => rfl
    | some o2 =>
      cases o2 <;> try rfl
      rw [Heap.lookup_set, if_neg hne]

theorem Heap.dictUpdate_lookup_self (h : Heap) (dst src : Nat)
    (d1 d2 : List (String × Nat)) (h1 : h.lookup dst = some (HObj.hdict d1))
    (h2 : h.lookup src = some (HObj.hdict d2)) :
    (h.dictUpdate dst src).lookup dst
      = some (HObj.hdict (d2.foldl (fun acc kv => assocSet acc kv.1 kv.2) d1)) := by
  unfold Heap.dictUpdate
  rw [h1, h2, Heap.lookup_set, if_pos rfl]

theorem psize_pos (v : PVal) : 1 ≤ psize v := by
  cases v <;> simp [psize]

mutual

theorem writeVal_next (v : PVal) (h : Heap) : (writeVal v h).2.next = h.next + psize v := by
  cases v with
  | pnone => simp [writeVal, psize, Heap.alloc]
  | pbool b => simp [writeVal, psize, Heap.alloc]
  | pnat n => simp [writeVal, psize, Heap.alloc]
  | pstr s => simp [writeVal, psize, Heap.alloc]
  | plist xs =>
    have hl := writeList_next xs h
    simp [writeVal, psize, Heap.alloc, hl]
    omega
  | pdict kvs =>
    have hd := writeDict_next kvs h
    simp [writeVal, psize, Heap.alloc, hd]
    omega

theorem writeList_next (xs : PValList) (h : Heap) :
    (writeList xs h).2.next = h.next + psizeL xs := by
  cases xs with
  | nil => simp [writeList, psizeL]
  | cons v vs =>
    have hv := writeVal_next v h
    have hs := writeList_next vs (writeVal v h).2
    simp [writeList, psizeL, hs, hv]
    omega

theorem writeDict_next (kvs : PValDict) (h : Heap) :
    (writeDict kvs h).2.next = h.next + psizeD kvs := by
  cases kvs with
  | nil => simp [writeDict, psizeD]
  | cons k v vs =>
    have hv := writeVal_next v h
    have hs := writeDict_next vs (writeVal v h).2
    simp [writeDict, psizeD, hs, hv]
    omega

end

mutual

theorem writeVal_lookup_old (v : PVal) (h : Heap) (b : Nat) (hb : b < h.next) :
    (writeVal v h).2.lookup b = h.lookup b := by
  cases v with
  | pnone => exact Heap.lookup_alloc_lt h _ b hb
  | pbool x => exact Heap.lookup_alloc_lt h _ b hb
  | pnat x => exact Heap.lookup_alloc_lt h _ b hb
  | pstr x => exact Heap.lookup_alloc_lt h _ b hb
  | plist xs =>
    have h1 := writeList_lookup_old xs h b hb
    have h2 := writeList_next xs h
    simp only [writeVal]
    rw [Heap.lookup_alloc_lt _ _ b (by omega), h1]
  | pdict kvs =>
    have h1 := writeDict_lookup_old kvs h b hb
    have h2 := writeDict_next kvs h
    simp only [writeVal]
    rw [Heap.lookup_alloc_lt _ _ b (by omega), h1]

theorem writeList_lookup_old (xs : PValList) (h : Heap) (b : Nat) (hb : b < h.next) :
    (writeList xs h).2.lookup b = h.lookup b := by
  cases xs with
  | nil => rfl
  | cons v vs =>
    have h1 := writeVal_lookup_old v h b hb
    have h2 := writeVal_next v h
    have h3 := writeList_lookup_old vs (writeVal v h).2 b (by omega)
    simp only [writeList]
    rw [h3, h1]

theorem writeDict_lookup_old (kvs : PValDict) (h : Heap) (b : Nat) (hb : b < h.next) :
    (writeDict kvs h).2.lookup b = h.lookup b := by
  cases kvs with
  | nil => rfl
  | cons k v vs =>
    have h1 := writeVal_lookup_old v h b hb
    have h2 := writeVal_next v h
    have h3 := writeDict_lookup_old vs (writeVal v h).2 b (by omega)
    simp only [writeDict]
    rw [h3, h1]

end

theorem writeVal_fst_bounds (v : PVal) (h : Heap) :
    h.next ≤ (writeVal v h).1 ∧ (writeVal v h).1 < (writeVal v h).2.next := by
  cases v with
  | pnone => simp [writeVal, Heap.alloc]
  | pbool b => simp [writeVal, Heap.alloc]
  | pnat n => simp [writeVal, Heap.alloc]
  | pstr s => simp [writeVal, Heap.alloc]
  | plist xs =>
    have h2 := writeList_next xs h
    simp only [writeVal]
    rw [Heap.alloc_fst, Heap.alloc_next]
    omega
  | pdict kvs =>
    have h2 := writeDict_next kvs h
    simp only [writeVal]
    rw [Heap.alloc_fst, Heap.alloc_next]
    omega

theorem writeDict_addrs (kvs : PValDict) (h : Heap) :
    ∀ e ∈ (writeDict kvs h).1, h.next ≤ e.2 ∧ e.2 < (writeDict kvs h).2.next := by
  cases kvs with
  | nil => intro e he; simp [writeDict] at he
  | cons k v vs =>
    intro e he
    have hv := writeVal_fst_bounds v h
    have hvn := writeVal_next v h
    have hsn := writeDict_next vs (writeVal v h).2
    have hcn := writeDict_next (PValDict.cons k v vs) h
    simp only [psizeD] at hcn
    simp only [writeDict, List.mem_cons] at he
    rcases he with rfl | he
    · simp only
      omega
    · have := writeDict_addrs vs (writeVal v h).2 e he
      simp only [writeDict]
      omega

theorem writeDict_keys (kvs : PValDict) (h : Heap) :
    (writeDict kvs h).1.map Prod.fst = pyDictKeys kvs := by
  cases kvs with
  | nil => rfl
  | cons k v vs =>
    simp only [writeDict, List.map_cons, pyDictKeys]
    rw [writeDict_keys vs (writeVal v h).2]

mutual

theorem readVal_writeVal (v : PVal) (h h₂ : Heap)
    (hag : ∀ b, h.next ≤ b → b < (writeVal v h).2.next → h₂.lookup b = (writeVal v h).2.lookup b)
    (fuel : Nat) (hfuel : pdepth v ≤ fuel) :
    readVal fuel h₂ (writeVal v h).1 = some v := by
  cases v with
  | pnone =>
    cases fuel with
    | zero => simp [pdepth] at hfuel
    | succ f =>
      have htop := hag h.next (le_refl _) (by simp [writeVal, Heap.alloc_next])
      simp only [writeVal, Heap.lookup_alloc, if_pos rfl] at htop
      simp only [writeVal, Heap.alloc_fst]
      rw [readVal_succ, htop]
      simp
  | pbool x =>
    cases fuel with
    | zero => simp [pdepth] at hfuel
    | succ f =>
      have htop := hag h.next (le_refl _) (by simp [writeVal, Heap.alloc_next])
      simp only [writeVal, Heap.lookup_alloc, if_pos rfl] at htop
      simp only [writeVal, Heap.alloc_fst]
      rw [readVal_succ, htop]
      simp
  | pnat x =>
    cases fuel with
    | zero => simp [pdepth] at hfuel
    | succ f =>
      have htop := hag h.next (le_refl _) (by simp [writeVal, Heap.alloc_next])
      simp only [writeVal, Heap.lookup_alloc, if_pos rfl] at htop
      simp only [writeVal, Heap.alloc_fst]
      rw [readVal_succ, htop]
      simp
  | pstr x =>
    cases fuel with
    | zero => simp [pdepth] at hfuel
    | succ f =>
      have htop := hag h.next (le_refl _) (by simp [writeVal, Heap.alloc_next])
      simp only [writeVal, Heap.lookup_alloc, if_pos rfl] at htop
      simp only [writeVal, Heap.alloc_fst]
      rw [readVal_succ, htop]
      simp
  | plist xs =>
    have hln := writeList_next xs h
    cases fuel with
    | zero => simp [pdepth] at hfuel
    | succ f =>
      have hdep : pdepthL xs ≤ f := by
        simp only [pdepth] at hfuel
        omega
      have hagl : ∀ b, h.next ≤ b → b < (writeList xs h).2.next →
          h₂.lookup b = (writeList xs h).2.lookup b := by
        intro b hb1 hb2
        have hb3 : b < (writeVal (PVal.plist xs) h).2.next := by
          simp only [writeVal, Heap.alloc_next]
          omega
        rw [hag b hb1 hb3]
        simp only [writeVal]
        rw [Heap.lookup_alloc, if_neg (by omega)]
      have hrl := readList_writeList xs h h₂ hagl f hdep
      have htop : h₂.lookup (writeList xs h).2.next
          = some (HObj.hlist (writeList xs h).1) := by
        have hb3 : (writeList xs h).2.next < (writeVal (PVal.plist xs) h).2.next := by
          simp only [writeVal, Heap.alloc_next]
          omega
        rw [hag (writeList xs h).2.next (by omega) hb3]
        simp only [writeVal]
        rw [Heap.lookup_alloc, if_pos rfl]
      have haddr : (writeVal (PVal.plist xs) h).1 = (writeList xs h).2.next := by
        simp only [writeVal, Heap.alloc_fst]
      rw [haddr, readVal_succ, htop]
      simp [hrl]
  | pdict kvs =>
    have hln := writeDict_next kvs h
    cases fuel with
    | zero => simp [pdepth] at hfuel
    | succ f =>
      have hdep : pdepthD kvs ≤ f := by
        simp only [pdepth] at hfuel
        omega
      have hagl : ∀ b, h.next ≤ b → b < (writeDict kvs h).2.next →
          h₂.lookup b = (writeDict kvs h).2.lookup b := by
        intro b hb1 hb2
        have hb3 : b < (writeVal (PVal.pdict kvs) h).2.next := by
          simp only [writeVal, Heap.alloc_next]
          omega
        rw [hag b hb1 hb3]
        simp only [writeVal]
        rw [Heap.lookup_alloc, if_neg (by omega)]
      have hrl := readDict_writeDict kvs h h₂ hagl f hdep
      have htop : h₂.lookup (writeDict kvs h).2.next
          = some (HObj.hdict (writeDict kvs h).1) := by
        have hb3 : (writeDict kvs h).2.next < (writeVal (PVal.pdict kvs) h).2.next := by
          simp only [writeVal, Heap.alloc_next]
          omega
        rw [hag (writeDict kvs h).2.next (by omega) hb3]
        simp only [writeVal]
        rw [Heap.lookup_alloc, if_pos rfl]
      have haddr : (writeVal (PVal.pdict kvs) h).1 = (writeDict kvs h).2.next := by
        simp only [writeVal, Heap.alloc_fst]
      rw [haddr, readVal_succ, htop]
      simp [hrl]

theorem readList_writeList (xs : PValList) (h h₂ : Heap)
    (hag : ∀ b, h.next ≤ b → b < (writeList xs h).2.next →
      h₂.lookup b = (writeList xs h).2.lookup b)
    (fuel : Nat) (hfuel : pdepthL xs ≤ fuel) :
    readList fuel h₂ (writeList xs h).1 = some xs := by
  cases xs with
  | nil => simp [writeList, readList_nil]
  | cons v vs =>
    have hvn := writeVal_next v h
    have hsn := writeList_next vs (writeVal v h).2
    have hv : readVal fuel h₂ (writeVal v h).1 = some v := by
      apply readVal_writeVal v h h₂ ?_ fuel (le_trans (le_max_left _ _) hfuel)
      intro b hb1 hb2
      have hb3 : b < (writeList (PValList.cons v vs) h).2.next := by
        simp only [writeList]
        omega
      rw [hag b hb1 hb3]
      simp only [writeList]
      exact writeList_lookup_old vs (writeVal v h).2 b hb2
    have hvs : readList fuel h₂ (writeList vs (writeVal v h).2).1 = some vs := by
      apply readList_writeList vs (writeVal v h).2 h₂ ?_ fuel (le_trans (le_max_right _ _) hfuel)
      intro b hb1 hb2
      have hb0 : h.next ≤ b := by omega
      have hb3 : b < (writeList (PValList.cons v vs) h).2.next := by
        simp only [writeList]
        omega
      rw [hag b hb0 hb3]
      simp only [writeList]
    simp only [writeList]
    rw [readList_cons, hv, hvs]

theorem readDict_writeDict (kvs : PValDict) (h h₂ : Heap)
    (hag : ∀ b, h.next ≤ b → b < (writeDict kvs h).2.next →
      h₂.lookup b = (writeDict kvs h).2.lookup b)
    (fuel : Nat) (hfuel : pdepthD kvs ≤ fuel) :
    readDict fuel h₂ (writeDict kvs h).1 = some kvs := by
  cases kvs with
  | nil => simp [writeDict, readDict_nil]
  | cons k v vs =>
    have hvn := writeVal_next v h
    have hsn := writeDict_next vs (writeVal v h).2
    have hv : readVal fuel h₂ (writeVal v h).1 = some v := by
      apply readVal_writeVal v h h₂ ?_ fuel (le_trans (le_max_left _ _) hfuel)
      intro b hb1 hb2
      have hb3 : b < (writeDict (PValDict.cons k v vs) h).2.next := by
        simp only [writeDict]
        omega
      rw [hag b hb1 hb3]
      simp only [writeDict]
      exact writeDict_lookup_old vs (writeVal v h).2 b hb2
    have hvs : readDict fuel h₂ (writeDict vs (writeVal v h).2).1 = some vs := by
      apply readDict_writeDict vs (writeVal v h).2 h₂ ?_ fuel (le_trans (le_max_right _ _) hfuel)
      intro b hb1 hb2
      have hb0 : h.next ≤ b := by omega
      have hb3 : b < (writeDict (PValDict.cons k v vs) h).2.next := by
        simp only [writeDict]
        omega
      rw [hag b hb0 hb3]
      simp only [writeDict]
    simp only [writeDict]
    rw [readDict_cons, hv, hvs]

end

theorem assocGet_mem (es : List (String × Nat)) (k : String) (a : Nat)
    (h : assocGet es k = some a) : (k, a) ∈ es := by
  induction es with
  | nil => simp [assocGet] at h
  | cons e rest ih =>
    rcases e with ⟨k0, a0⟩
    by_cases hk : k0 = k
    · subst hk
      rw [assocGet, if_pos rfl] at h
      cases h
      exact List.mem_cons_self _ _
    · rw [assocGet, if_neg hk] at h
      exact List.mem_cons_of_mem _ (ih h)

theorem assocSet_mem_sub (es : List (String × Nat)) (k : String) (a : Nat) :
    ∀ e ∈ assocSet es k a, e ∈ es ∨ e = (k, a) := by
  induction es with
  | nil =>
    intro e he
    simp [assocSet] at he
    exact Or.inr he
  | cons e0 rest ih =>
    rcases e0 with ⟨k0, a0⟩
    intro e he
    by_cases hk : k0 = k
    · subst hk
      rw [assocSet, if_pos rfl] at he
      rcases List.mem_cons.mp he with rfl | he
      · exact Or.inr rfl
      · exact Or.inl (List.mem_cons_of_mem _ he)
    · rw [assocSet, if_neg hk] at he
      rcases List.mem_cons.mp he with rfl | he
      · exact Or.inl (List.mem_cons_self _ _)
      · rcases ih e he with h1 | h1
        · exact Or.inl (List.mem_cons_of_mem _ h1)
        · exact Or.inr h1

theorem foldl_assocSet_mem (src : List (String × Nat)) :
    ∀ (init : List (String × Nat)),
      ∀ e ∈ src.foldl (fun acc kv => assocSet acc kv.1 kv.2) init, e ∈ init ∨ e ∈ src := by
  induction src with
  | nil => intro init e he; exact Or.inl he
  | cons kv rest ih =>
    intro init e he
    rw [List.foldl_cons] at he
    rcases ih (assocSet init kv.1 kv.2) e he with h1 | h1
    · rcases assocSet_mem_sub init kv.1 kv.2 e h1 with h2 | h2
      · exact Or.inl h2
      · exact Or.inr (by rw [h2]; exact List.mem_cons_self _ _)
    · exact Or.inr (List.mem_cons_of_mem _ h1)

theorem assocGet_assocSet_ne (es : List (String × Nat)) (k k' : String) (a : Nat)
    (hne : k' ≠ k) : assocGet (assocSet es k' a) k = assocGet es k := by
  induction es with
  | nil => simp [assocSet, assocGet, hne]
  | cons e rest ih =>
    rcases e with ⟨k0, a0⟩
    by_cases hk : k0 = k'
    · subst hk
      rw [assocSet, if_pos rfl, assocGet, assocGet, if_neg hne, if_neg hne]
    · rw [assocSet, if_neg hk]
      by_cases hk2 : k0 = k
      · rw [assocGet, if_pos hk2, assocGet, if_pos hk2]
      · rw [assocGet, if_neg hk2, assocGet, if_neg hk2, ih]

theorem assocGet_foldl_not_mem (src : List (String × Nat)) (k : String)
    (hk : k ∉ src.map Prod.fst) :
    ∀ init, assocGet (src.foldl (fun acc kv => assocSet acc kv.1 kv.2) init) k
      = assocGet init k := by
  induction src with
  | nil => intro init; rfl
  | cons kv rest ih =>
    intro init
    simp only [List.map_cons, List.mem_cons] at hk
    push_neg at hk
    rw [List.foldl_cons, ih hk.2, assocGet_assocSet_ne _ _ _ _ (fun h => hk.1 h.symm)]

theorem readDict_entries_both (fuel : Nat) (h₁ h₂ : Heap) (es : List (String × Nat)) :
    ∀ d, readDict fuel h₁ es = some d → readDict fuel h₂ es = some d →
      ∀ e ∈ es, ∃ v, readVal fuel h₁ e.2 = some v ∧ readVal fuel h₂ e.2 = some v := by
  induction es with
  | nil => intro d _ _ e he; simp at he
  | cons e0 rest ih =>
    rcases e0 with ⟨k, a⟩
    intro d h1 h2 e he
    rw [readDict_cons] at h1 h2
    cases hv1 : readVal fuel h₁ a with
    | none => rw [hv1] at h1; simp at h1
    | some v1 =>
      cases hd1 : readDict fuel h₁ rest with
      | none => rw [hv1, hd1] at h1; simp at h1
      | some d1 =>
        rw [hv1, hd1] at h1
        cases hv2 : readVal fuel h₂ a with
        | none => rw [hv2] at h2; simp at h2
        | some v2 =>
          cases hd2 : readDict fuel h₂ rest with
          | none => rw [hv2, hd2] at h2; simp at h2
          | some d2 =>
            rw [hv2, hd2] at h2
            simp only [Option.some.injEq] at h1 h2
            rw [← h1] at h2
            injection h2 with hk hv hd
            rcases List.mem_cons.mp he with rfl | he
            · exact ⟨v1, hv1, by rw [hv2, hv]⟩
            · exact ih d1 hd1 (by rw [hd2, hd]) e he

theorem readDict_pointwise_build (fuel : Nat) (h₁ h₂ : Heap) (es : List (String × Nat))
    (hall : ∀ e ∈ es, ∃ v, readVal fuel h₁ e.2 = some v ∧ readVal fuel h₂ e.2 = some v) :
    ∃ d, readDict fuel h₁ es = some d ∧ readDict fuel h₂ es = some d := by
  induction es with
  | nil => exact ⟨PValDict.nil, readDict_nil _ _, readDict_nil _ _⟩
  | cons e0 rest ih =>
    rcases e0 with ⟨k, a⟩
    rcases hall (k, a) (List.mem_cons_self _ _) with ⟨v, hv1, hv2⟩
    rcases ih (fun e he => hall e (List.mem_cons_of_mem _ he)) with ⟨d, hd1, hd2⟩
    refine ⟨PValDict.cons k v d, ?_, ?_⟩
    · rw [readDict_cons, hv1, hd1]
    · rw [readDict_cons, hv2, hd2]

theorem readDict_assocGet_some (fuel : Nat) (h : Heap) (es : List (String × Nat)) :
    ∀ d k v, readDict fuel h es = some d → pyDictGet d k = some v →
      ∃ a, assocGet es k = some a ∧ readVal fuel h a = some v := by
  induction es with
  | nil =>
    intro d k v h1 h2
    rw [readDict_nil] at h1
    cases h1
    simp [pyDictGet] at h2
  | cons e0 rest ih =>
    rcases e0 with ⟨k0, a0⟩
    intro d k v h1 h2
    rw [readDict_cons] at h1
    cases hv0 : readVal fuel h a0 with
    | none => rw [hv0] at h1; simp at h1
    | some v0 =>
      cases hd0 : readDict fuel h rest with
      | none => rw [hv0, hd0] at h1; simp at h1
      | some d0 =>
        rw [hv0, hd0] at h1
        simp only [Option.some.injEq] at h1
        rw [← h1] at h2
        by_cases hk : k0 = k
        · subst hk
          rw [pyDictGet, if_pos rfl] at h2
          cases h2
          exact ⟨a0, by rw [assocGet, if_pos rfl], hv0⟩
        · rw [pyDictGet, if_neg hk] at h2
          rcases ih d0 k v hd0 h2 with ⟨a, ha1, ha2⟩
          exact ⟨a, by rw [assocGet, if_neg hk]; exact ha1, ha2⟩

theorem allocResolv_next (h : Heap) (s : Nat) (nd : String) :
    (allocResolv h s nd).2.next = h.next + 3 := by
  unfold allocResolv
  simp only [Heap.alloc_next]

theorem allocResolv_lookup (h : Heap) (s : Nat) (nd : String) (b : Nat) (hb : b < h.next) :
    (allocResolv h s nd).2.lookup b = h.lookup b := by
  unfold allocResolv
  simp only
  rw [Heap.lookup_alloc_lt _ _ b (by simp only [Heap.alloc_next]; omega),
    Heap.lookup_alloc_lt _ _ b (by simp only [Heap.alloc_next]; omega),
    Heap.lookup_alloc_lt _ _ b hb]

theorem setHostname_next (h : Heap) (s u : Nat) : (setHostname h s u).next = h.next := by
  unfold setHostname
  cases h.dictGetAddr s "hostname" with
  | none => rfl
  | some ha => exact Heap.dictSetField_next h u "hostname" ha

theorem setHostname_lookup (h : Heap) (s u b : Nat) (hb : u ≠ b) :
    (setHostname h s u).lookup b = h.lookup b := by
  unfold setHostname
  cases h.dictGetAddr s "hostname" with
  | none => rfl
  | some ha => exact Heap.dictSetField_lookup_ne h u "hostname" ha b hb

theorem allocFqdn_next (h : Heap) (s : Nat) (nd : String) :
    (allocFqdn h s nd).2.next = h.next + 1 := by
  unfold allocFqdn
  simp only [Heap.alloc_next]

theorem allocFqdn_lookup (h : Heap) (s : Nat) (nd : String) (b : Nat) (hb : b < h.next) :
    (allocFqdn h s nd).2.lookup b = h.lookup b := by
  unfold allocFqdn
  simp only
  rw [Heap.lookup_alloc_lt _ _ b hb]

theorem sshKeysAddr_next (h : Heap) (s : Nat) : h.next ≤ (sshKeysAddr h s).2.next := by
  unfold sshKeysAddr
  cases h.dictGetAddr s "ssh_keys" with
  | none => simp only [Heap.alloc_next]; omega
  | some sa => simp only; omega

theorem sshKeysAddr_lookup (h : Heap) (s : Nat) (b : Nat) (hb : b < h.next) :
    (sshKeysAddr h s).2.lookup b = h.lookup b := by
  unfold sshKeysAddr
  cases h.dictGetAddr s "ssh_keys" with
  | none => exact Heap.lookup_alloc_lt h _ b hb
  | some sa => rfl

/-- Frame property of the userdata mutation: it changes only the userdata
object itself (plus fresh allocations), so every other previously
allocated address reads back unchanged. -/
theorem initMutateCore_lookup (h : Heap) (s u : Nat) (nd : String) (b : Nat)
    (hb : b < h.next) (hbu : u ≠ b) :
    (initMutateCore h s u nd).lookup b = h.lookup b := by
  unfold initMutateCore
  simp only
  have n1 := allocResolv_next h s nd
  have k1 := allocResolv_lookup h s nd b hb
  rw [Heap.dictSetField_lookup_ne _ u _ _ b hbu]
  rw [sshKeysAddr_lookup _ s b ?b9]
  case b9 =>
    rw [Heap.dictSetField_next, allocFqdn_next, setHostname_next, Heap.dictSetField_next,
      Heap.dictSetField_next, Heap.alloc_next, n1]
    omega
  rw [Heap.dictSetField_lookup_ne _ u _ _ b hbu]
  rw [allocFqdn_lookup _ s nd b ?b7]
  case b7 =>
    rw [setHostname_next, Heap.dictSetField_next, Heap.dictSetField_next, Heap.alloc_next, n1]
    omega
  rw [setHostname_lookup _ s u b hbu]
  rw [Heap.dictSetField_lookup_ne _ u _ _ b hbu]
  rw [Heap.dictSetField_lookup_ne _ u _ _ b hbu]
  rw [Heap.lookup_alloc_lt _ _ b (by rw [n1]; omega)]
  exact k1

/-- Frame property of `initMutate`: addresses other than the machine's
userdata object are unaffected. -/
theorem initMutate_lookup (h : Heap) (s : Nat) (nd : String) (b : Nat) (hb : b < h.next)
    (hbu : ∀ u, h.dictGetAddr s "userdata" = some u → u ≠ b) :
    (initMutate h s nd).lookup b = h.lookup b := by
  unfold initMutate
  cases hud : h.dictGetAddr s "userdata" with
  | none => rfl
  | some u => exact initMutateCore_lookup h s u nd b hb (hbu u hud)

theorem writeVal_pdict (kvs : PValDict) (h : Heap) :
    writeVal (PVal.pdict kvs) h
      = ((writeDict kvs h).2.next,
         ((writeDict kvs h).2.alloc (HObj.hdict (writeDict kvs h).1)).2) := by
  simp only [writeVal]
  rfl

theorem writeVal_pdict_lookup_top (kvs : PValDict) (h : Heap) :
    (writeVal (PVal.pdict kvs) h).2.lookup (writeVal (PVal.pdict kvs) h).1
      = some (HObj.hdict (writeDict kvs h).1) := by
  rw [writeVal_pdict]
  rw [Heap.lookup_alloc, if_pos rfl]

/-- Result of one compiled-machine step (`deepcopy` then `update`) when the
common block reads back as a dict and the per-machine override is a dict
object below the allocation frontier: the fresh copy's root holds the
merged entry list, all older addresses are untouched, and the copy's
children read back through the untouched copy interval. -/
theorem prepareOne_spec (fuel : Nat) (h : Heap) (c vmAddr : Nat) (ckvs : PValDict)
    (ek : List (String × Nat))
    (hread : readVal fuel h c = some (PVal.pdict ckvs))
    (hvm : h.lookup vmAddr = some (HObj.hdict ek)) (hvma : vmAddr < h.next) :
    ∃ h₁, prepareOne fuel h c vmAddr = some ((writeDict ckvs h).2.next, h₁)
    ∧ h₁.next = h.next + psizeD ckvs + 1
    ∧ (∀ b, b < h.next → h₁.lookup b = h.lookup b)
    ∧ h₁.lookup (writeDict ckvs h).2.next
        = some (HObj.hdict (ek.foldl (fun acc kv => assocSet acc kv.1 kv.2) (writeDict ckvs h).1))
    ∧ (∀ b, h.next ≤ b → b < (writeDict ckvs h).2.next →
        h₁.lookup b = (writeDict ckvs h).2.lookup b) := by
  have hwn := writeDict_next ckvs h
  have hupd : ((writeVal (PVal.pdict ckvs) h).2).dictUpdate (writeVal (PVal.pdict ckvs) h).1 vmAddr
      = ((writeVal (PVal.pdict ckvs) h).2).set (writeDict ckvs h).2.next
        (HObj.hdict (ek.foldl (fun acc kv => assocSet acc kv.1 kv.2) (writeDict ckvs h).1)) := by
    have hdst := writeVal_pdict_lookup_top ckvs h
    have hsrc : (writeVal (PVal.pdict ckvs) h).2.lookup vmAddr = some (HObj.hdict ek) := by
      rw [writeVal_pdict]
      rw [Heap.lookup_alloc, if_neg (by omega)]
      rw [writeDict_lookup_old ckvs h vmAddr hvma]
      exact hvm
    rw [Heap.dictUpdate]
    rw [hdst, hsrc]
    rw [writeVal_pdict]
  refine ⟨(writeVal (PVal.pdict ckvs) h).2.set (writeDict ckvs h).2.next
    (HObj.hdict (ek.foldl (fun acc kv => assocSet acc kv.1 kv.2) (writeDict ckvs h).1)),
    ?_, ?_, ?_, ?_, ?_⟩
  · rw [prepareOne, hread]
    simp only []
    rw [hupd, writeVal_pdict]
  · rw [Heap.set_next, writeVal_pdict, Heap.alloc_next, hwn]
  · intro b hb
    rw [Heap.lookup_set, if_neg (by omega), writeVal_pdict]
    rw [Heap.lookup_alloc, if_neg (by omega)]
    exact writeDict_lookup_old ckvs h b hb
  · rw [Heap.lookup_set, if_pos rfl]
  · intro b hb1 hb2
    rw [Heap.lookup_set, if_neg (by omega), writeVal_pdict]
    rw [Heap.lookup_alloc, if_neg (by omega)]

theorem dictGetAddr_of_lookup (h : Heap) (a : Nat) (es : List (String × Nat)) (k : String)
    (hl : h.lookup a = some (HObj.hdict es)) : h.dictGetAddr a k = assocGet es k := by
  unfold Heap.dictGetAddr
  rw [hl]

/-- Claim C6: two machines compiled from the same document, sharing the
common block (whose `userdata` the per-machine overrides do not replace).
The in-place injection of `resolv_conf`, `hostname`, `fqdn` and
`ssh_authorized_keys` performed into machine A's userdata during record
construction (`initMutate`) leaves machine B's compiled settings snapshot
and derived userdata unchanged, and the two machines' userdata objects are
distinct heap objects — no nested structure of the common block is aliased
between the two records, because `_prepareconfig` deep-copies the common
block per machine. -/
theorem claim_C6 (ckvs akvs bkvs udkvs : PValDict) (netDomain : String) (fuel : Nat)
    (c aA aB sA sB : Nat) (h1 h2 h3 h5 : Heap)
    (hw1 : writeVal (PVal.pdict ckvs) emptyHeap = (c, h1))
    (hw2 : writeVal (PVal.pdict akvs) h1 = (aA, h2))
    (hw3 : writeVal (PVal.pdict bkvs) h2 = (aB, h3))
    (hud : pyDictGet ckvs "userdata" = some (PVal.pdict udkvs))
    (hudA : "userdata" ∉ pyDictKeys akvs)
    (hudB : "userdata" ∉ pyDictKeys bkvs)
    (hfc : pdepthD ckvs < fuel)
    (hfb : pdepthD bkvs < fuel)
    (hprep : prepareMachines fuel c [aA, aB] h3 = some ([sA, sB], h5)) :
    ∃ vB uA uB,
      readVal fuel h5 sB = some vB
      ∧ readVal fuel (initMutate h5 sA netDomain) sB = some vB
      ∧ Heap.dictGetAddr h5 sA "userdata" = some uA
      ∧ Heap.dictGetAddr h5 sB "userdata" = some uB
      ∧ uA ≠ uB
      ∧ Heap.dictGetAddr (initMutate h5 sA netDomain) sB "userdata" = some uB
      ∧ readVal fuel h5 uB = some (PVal.pdict udkvs)
      ∧ readVal fuel (initMutate h5 sA netDomain) uB = some (PVal.pdict udkvs) := by
  have e1c : (writeVal (PVal.pdict ckvs) emptyHeap).1 = c := by rw [hw1]
  have e1h : (writeVal (PVal.pdict ckvs) emptyHeap).2 = h1 := by rw [hw1]
  have e2a : (writeVal (PVal.pdict akvs) h1).1 = aA := by rw [hw2]
  have e2h : (writeVal (PVal.pdict akvs) h1).2 = h2 := by rw [hw2]
  have e3b : (writeVal (PVal.pdict bkvs) h2).1 = aB := by rw [hw3]
  have e3h : (writeVal (PVal.pdict bkvs) h2).2 = h3 := by rw [hw3]
  have hn1 : h1.next = psizeD ckvs + 1 := by
    rw [← e1h, writeVal_next]
    simp [psize, emptyHeap]
  have hn2 : h2.next = h1.next + psizeD akvs + 1 := by
    rw [← e2h, writeVal_next]
    simp only [psize]
    omega
  have hn3 : h3.next = h2.next + psizeD bkvs + 1 := by
    rw [← e3h, writeVal_next]
    simp only [psize]
    omega
  have hcb : c < h1.next := by
    have hbd := writeVal_fst_bounds (PVal.pdict ckvs) emptyHeap
    rw [e1c, e1h] at hbd
    exact hbd.2
  have haAb : h1.next ≤ aA ∧ aA < h2.next := by
    have hbd := writeVal_fst_bounds (PVal.pdict akvs) h1
    rw [e2a, e2h] at hbd
    exact hbd
  have haBb : h2.next ≤ aB ∧ aB < h3.next := by
    have hbd := writeVal_fst_bounds (PVal.pdict bkvs) h2
    rw [e3b, e3h] at hbd
    exact hbd
  have hobjA2 : h2.lookup aA = some (HObj.hdict (writeDict akvs h1).1) := by
    rw [← e2h, ← e2a]
    exact writeVal_pdict_lookup_top akvs h1
  have hobjB3 : h3.lookup aB = some (HObj.hdict (writeDict bkvs h2).1) := by
    rw [← e3h, ← e3b]
    exact writeVal_pdict_lookup_top bkvs h2
  have hobjA3 : h3.lookup aA = some (HObj.hdict (writeDict akvs h1).1) := by
    rw [← e3h, writeVal_lookup_old (PVal.pdict bkvs) h2 aA haAb.2]
    exact hobjA2
  have hkA : (writeDict akvs h1).1.map Prod.fst = pyDictKeys akvs := writeDict_keys akvs h1
  have hkB : (writeDict bkvs h2).1.map Prod.fst = pyDictKeys bkvs := writeDict_keys bkvs h2
  have hdep : pdepth (PVal.pdict ckvs) ≤ fuel := by
    simp only [pdepth]
    omega
  have hread3 : readVal fuel h3 c = some (PVal.pdict ckvs) := by
    rw [← e1c]
    apply readVal_writeVal (PVal.pdict ckvs) emptyHeap h3 ?_ fuel hdep
    intro b hb1 hb2
    rw [e1h] at hb2 ⊢
    rw [← e3h, writeVal_lookup_old (PVal.pdict bkvs) h2 b (by omega)]
    rw [← e2h, writeVal_lookup_old (PVal.pdict akvs) h1 b hb2]
  obtain ⟨hA₁, hPA, nA, oldA, topA, agA⟩ :=
    prepareOne_spec fuel h3 c aA ckvs (writeDict akvs h1).1 hread3 hobjA3 (by omega)
  have hreadA : readVal fuel hA₁ c = some (PVal.pdict ckvs) := by
    rw [← e1c]
    apply readVal_writeVal (PVal.pdict ckvs) emptyHeap hA₁ ?_ fuel hdep
    intro b hb1 hb2
    rw [e1h] at hb2 ⊢
    rw [oldA b (by omega)]
    rw [← e3h, writeVal_lookup_old (PVal.pdict bkvs) h2 b (by omega)]
    rw [← e2h, writeVal_lookup_old (PVal.pdict akvs) h1 b hb2]
  have hobjBA : hA₁.lookup aB = some (HObj.hdict (writeDict bkvs h2).1) := by
    rw [oldA aB haBb.2]
    exact hobjB3
  obtain ⟨hB₁, hPB, nB, oldB, topB, agB⟩ :=
    prepareOne_spec fuel hA₁ c aB ckvs (writeDict bkvs h2).1 hreadA hobjBA (by omega)
  have hcomp : prepareMachines fuel c [aA, aB] h3
      = some ([(writeDict ckvs h3).2.next, (writeDict ckvs hA₁).2.next], hB₁) := by
    simp only [prepareMachines, hPA, hPB]
  rw [hcomp] at hprep
  simp only [Option.some.injEq, Prod.mk.injEq, List.cons.injEq, and_true] at hprep
  obtain ⟨⟨hsA, hsB⟩, hh5⟩ := hprep
  subst hsA
  subst hsB
  subst hh5
  have hwnA : (writeDict ckvs h3).2.next = h3.next + psizeD ckvs := writeDict_next ckvs h3
  have hwnB : (writeDict ckvs hA₁).2.next = hA₁.next + psizeD ckvs := writeDict_next ckvs hA₁
  have hwnBk : (writeDict bkvs h2).2.next = h2.next + psizeD bkvs := writeDict_next bkvs h2
  have hsAlt : (writeDict ckvs h3).2.next < hA₁.next := by omega
  have topA5 : hB₁.lookup (writeDict ckvs h3).2.next
      = some (HObj.hdict ((writeDict akvs h1).1.foldl
          (fun acc kv => assocSet acc kv.1 kv.2) (writeDict ckvs h3).1)) := by
    rw [oldB _ hsAlt]
    exact topA
  have hreadDc5A : readDict fuel hB₁ (writeDict ckvs h3).1 = some ckvs := by
    apply readDict_writeDict ckvs h3 hB₁ ?_ fuel (by omega)
    intro b hb1 hb2
    rw [oldB b (by omega)]
    exact agA b hb1 hb2
  obtain ⟨uA, huAget, huAread⟩ := readDict_assocGet_some fuel hB₁ (writeDict ckvs h3).1
    ckvs "userdata" (PVal.pdict udkvs) hreadDc5A hud
  have huAb : h3.next ≤ uA ∧ uA < (writeDict ckvs h3).2.next :=
    writeDict_addrs ckvs h3 _ (assocGet_mem _ _ _ huAget)
  have hgetA : hB₁.dictGetAddr (writeDict ckvs h3).2.next "userdata" = some uA := by
    rw [dictGetAddr_of_lookup _ _ _ _ topA5]
    rw [assocGet_foldl_not_mem (writeDict akvs h1).1 "userdata"
      (by rw [hkA]; exact hudA) (writeDict ckvs h3).1]
    exact huAget
  have hreadDc5B : readDict fuel hB₁ (writeDict ckvs hA₁).1 = some ckvs := by
    apply readDict_writeDict ckvs hA₁ hB₁ ?_ fuel (by omega)
    exact agB
  obtain ⟨uB, huBget, huBread⟩ := readDict_assocGet_some fuel hB₁ (writeDict ckvs hA₁).1
    ckvs "userdata" (PVal.pdict udkvs) hreadDc5B hud
  have huBb : hA₁.next ≤ uB ∧ uB < (writeDict ckvs hA₁).2.next :=
    writeDict_addrs ckvs hA₁ _ (assocGet_mem _ _ _ huBget)
  have huAuB : uA ≠ uB := by omega
  have hgetB : hB₁.dictGetAddr (writeDict ckvs hA₁).2.next "userdata" = some uB := by
    rw [dictGetAddr_of_lookup _ _ _ _ topB]
    rw [assocGet_foldl_not_mem (writeDict bkvs h2).1 "userdata"
      (by rw [hkB]; exact hudB) (writeDict ckvs hA₁).1]
    exact huBget
  have hframe : ∀ b, b < hB₁.next → b ≠ uA →
      (initMutate hB₁ (writeDict ckvs h3).2.next netDomain).lookup b = hB₁.lookup b := by
    intro b hblt hbne
    apply initMutate_lookup hB₁ _ netDomain b hblt
    intro u hu
    rw [hgetA] at hu
    injection hu with hu
    rw [← hu]
    exact Ne.symm hbne
  have topB6 : (initMutate hB₁ (writeDict ckvs h3).2.next netDomain).lookup
      (writeDict ckvs hA₁).2.next
      = some (HObj.hdict ((writeDict bkvs h2).1.foldl
          (fun acc kv => assocSet acc kv.1 kv.2) (writeDict ckvs hA₁).1)) := by
    rw [hframe _ (by omega) (by omega)]
    exact topB
  have hget6 : (initMutate hB₁ (writeDict ckvs h3).2.next netDomain).dictGetAddr
      (writeDict ckvs hA₁).2.next "userdata" = some uB := by
    rw [dictGetAddr_of_lookup _ _ _ _ topB6]
    rw [assocGet_foldl_not_mem (writeDict bkvs h2).1 "userdata"
      (by rw [hkB]; exact hudB) (writeDict ckvs hA₁).1]
    exact huBget
  have hreadDc6B : readDict fuel (initMutate hB₁ (writeDict ckvs h3).2.next netDomain)
      (writeDict ckvs hA₁).1 = some ckvs := by
    apply readDict_writeDict ckvs hA₁ _ ?_ fuel (by omega)
    intro b hb1 hb2
    rw [hframe b (by omega) (by omega)]
    exact agB b hb1 hb2
  obtain ⟨uB', huB'get, huB'read⟩ := readDict_assocGet_some fuel
    (initMutate hB₁ (writeDict ckvs h3).2.next netDomain) (writeDict ckvs hA₁).1
    ckvs "userdata" (PVal.pdict udkvs) hreadDc6B hud
  rw [huBget] at huB'get
  injection huB'get with huB'
  subst huB'
  obtain ⟨f, rfl⟩ : ∃ f, fuel = f + 1 := ⟨fuel - 1, by omega⟩
  have hDc5Bf : readDict f hB₁ (writeDict ckvs hA₁).1 = some ckvs := by
    apply readDict_writeDict ckvs hA₁ hB₁ ?_ f (by omega)
    exact agB
  have hDc6Bf : readDict f (initMutate hB₁ (writeDict ckvs h3).2.next netDomain)
      (writeDict ckvs hA₁).1 = some ckvs := by
    apply readDict_writeDict ckvs hA₁ _ ?_ f (by omega)
    intro b hb1 hb2
    rw [hframe b (by omega) (by omega)]
    exact agB b hb1 hb2
  have hagBk5 : ∀ b, h2.next ≤ b → b < (writeDict bkvs h2).2.next →
      hB₁.lookup b = (writeDict bkvs h2).2.lookup b := by
    intro b hb1 hb2
    rw [oldB b (by omega), oldA b (by omega)]
    rw [← e3h, writeVal_pdict]
    rw [Heap.lookup_alloc, if_neg (by omega)]
  have hDb5f : readDict f hB₁ (writeDict bkvs h2).1 = some bkvs := by
    apply readDict_writeDict bkvs h2 hB₁ ?_ f (by omega)
    exact hagBk5
  have hDb6f : readDict f (initMutate hB₁ (writeDict ckvs h3).2.next netDomain)
      (writeDict bkvs h2).1 = some bkvs := by
    apply readDict_writeDict bkvs h2 _ ?_ f (by omega)
    intro b hb1 hb2
    rw [hframe b (by omega) (by omega)]
    exact hagBk5 b hb1 hb2
  have hall : ∀ e ∈ (writeDict bkvs h2).1.foldl
      (fun acc kv => assocSet acc kv.1 kv.2) (writeDict ckvs hA₁).1,
      ∃ v, readVal f hB₁ e.2 = some v
        ∧ readVal f (initMutate hB₁ (writeDict ckvs h3).2.next netDomain) e.2 = some v := by
    intro e he
    rcases foldl_assocSet_mem _ _ e he with hm | hm
    · exact readDict_entries_both f hB₁ _ _ ckvs hDc5Bf hDc6Bf e hm
    · exact readDict_entries_both f hB₁ _ _ bkvs hDb5f hDb6f e hm
  obtain ⟨dB, hdB5, hdB6⟩ := readDict_pointwise_build f hB₁
    (initMutate hB₁ (writeDict ckvs h3).2.next netDomain) _ hall
  refine ⟨PVal.pdict dB, uA, uB, ?_, ?_, hgetA, hgetB, huAuB, hget6, huBread, huB'read⟩
  · rw [readVal_succ, topB]
    simp [hdB5]
  · rw [readVal_succ, topB6]
    simp [hdB6]

/-- Witness for C6 at a concrete two-machine document: the common block
carries a nested userdata dict and an ssh_keys list, each machine only
overrides its hostname. -/
theorem claim_C6_witness :
    ∃ vB uA uB,
      readVal 5 ((prepareMachines 5 4 [6, 8] (writeVal (PVal.pdict (PValDict.cons "hostname" (PVal.pstr "b") PValDict.nil)) (writeVal (PVal.pdict (PValDict.cons "hostname" (PVal.pstr "a") PValDict.nil)) (writeVal (PVal.pdict (PValDict.cons "userdata" (PVal.pdict (PValDict.cons "packages" (PVal.pstr "vim") PValDict.nil)) (PValDict.cons "ssh_keys" (PVal.plist (PValList.cons (PVal.pstr "k1") PValList.nil)) PValDict.nil))) emptyHeap).2).2).2).getD ([], emptyHeap)).2 18 = some vB
      ∧ readVal 5 (initMutate ((prepareMachines 5 4 [6, 8] (writeVal (PVal.pdict (PValDict.cons "hostname" (PVal.pstr "b") PValDict.nil)) (writeVal (PVal.pdict (PValDict.cons "hostname" (PVal.pstr "a") PValDict.nil)) (writeVal (PVal.pdict (PValDict.cons "userdata" (PVal.pdict (PValDict.cons "packages" (PVal.pstr "vim") PValDict.nil)) (PValDict.cons "ssh_keys" (PVal.plist (PValList.cons (PVal.pstr "k1") PValList.nil)) PValDict.nil))) emptyHeap).2).2).2).getD ([], emptyHeap)).2 13 "lan") 18 = some vB
      ∧ Heap.dictGetAddr ((prepareMachines 5 4 [6, 8] (writeVal (PVal.pdict (PValDict.cons "hostname" (PVal.pstr "b") PValDict.nil)) (writeVal (PVal.pdict (PValDict.cons "hostname" (PVal.pstr "a") PValDict.nil)) (writeVal (PVal.pdict (PValDict.cons "userdata" (PVal.pdict (PValDict.cons "packages" (PVal.pstr "vim") PValDict.nil)) (PValDict.cons "ssh_keys" (PVal.plist (PValList.cons (PVal.pstr "k1") PValList.nil)) PValDict.nil))) emptyHeap).2).2).2).getD ([], emptyHeap)).2 13 "userdata" = some uA
      ∧ Heap.dictGetAddr ((prepareMachines 5 4 [6, 8] (writeVal (PVal.pdict (PValDict.cons "hostname" (PVal.pstr "b") PValDict.nil)) (writeVal (PVal.pdict (PValDict.cons "hostname" (PVal.pstr "a") PValDict.nil)) (writeVal (PVal.pdict (PValDict.cons "userdata" (PVal.pdict (PValDict.cons "packages" (PVal.pstr "vim") PValDict.nil)) (PValDict.cons "ssh_keys" (PVal.plist (PValList.cons (PVal.pstr "k1") PValList.nil)) PValDict.nil))) emptyHeap).2).2).2).getD ([], emptyHeap)).2 18 "userdata" = some uB
      ∧ uA ≠ uB
      ∧ Heap.dictGetAddr (initMutate ((prepareMachines 5 4 [6, 8] (writeVal (PVal.pdict (PValDict.cons "hostname" (PVal.pstr "b") PValDict.nil)) (writeVal (PVal.pdict (PValDict.cons "hostname" (PVal.pstr "a") PValDict.nil)) (writeVal (PVal.pdict (PValDict.cons "userdata" (PVal.pdict (PValDict.cons "packages" (PVal.pstr "vim") PValDict.nil)) (PValDict.cons "ssh_keys" (PVal.plist (PValList.cons (PVal.pstr "k1") PValList.nil)) PValDict.nil))) emptyHeap).2).2).2).getD ([], emptyHeap)).2 13 "lan") 18 "userdata" = some uB
      ∧ readVal 5 ((prepareMachines 5 4 [6, 8] (writeVal (PVal.pdict (PValDict.cons "hostname" (PVal.pstr "b") PValDict.nil)) (writeVal (PVal.pdict (PValDict.cons "hostname" (PVal.pstr "a") PValDict.nil)) (writeVal (PVal.pdict (PValDict.cons "userdata" (PVal.pdict (PValDict.cons "packages" (PVal.pstr "vim") PValDict.nil)) (PValDict.cons "ssh_keys" (PVal.plist (PValList.cons (PVal.pstr "k1") PValList.nil)) PValDict.nil))) emptyHeap).2).2).2).getD ([], emptyHeap)).2 uB = some (PVal.pdict (PValDict.cons "packages" (PVal.pstr "vim") PValDict.nil))
      ∧ readVal 5 (initMutate ((prepareMachines 5 4 [6, 8] (writeVal (PVal.pdict (PValDict.cons "hostname" (PVal.pstr "b") PValDict.nil)) (writeVal (PVal.pdict (PValDict.cons "hostname" (PVal.pstr "a") PValDict.nil)) (writeVal (PVal.pdict (PValDict.cons "userdata" (PVal.pdict (PValDict.cons "packages" (PVal.pstr "vim") PValDict.nil)) (PValDict.cons "ssh_keys" (PVal.plist (PValList.cons (PVal.pstr "k1") PValList.nil)) PValDict.nil))) emptyHeap).2).2).2).getD ([], emptyHeap)).2 13 "lan") uB = some (PVal.pdict (PValDict.cons "packages" (PVal.pstr "vim") PValDict.nil)) :=
  claim_C6 (PValDict.cons "userdata" (PVal.pdict (PValDict.cons "packages" (PVal.pstr "vim") PValDict.nil)) (PValDict.cons "ssh_keys" (PVal.plist (PValList.cons (PVal.pstr "k1") PValList.nil)) PValDict.nil)) (PValDict.cons "hostname" (PVal.pstr "a") PValDict.nil) (PValDict.cons "hostname" (PVal.pstr "b") PValDict.nil) (PValDict.cons "packages" (PVal.pstr "vim") PValDict.nil) "lan" 5 4 6 8 13 18
    (writeVal (PVal.pdict (PValDict.cons "userdata" (PVal.pdict (PValDict.cons "packages" (PVal.pstr "vim") PValDict.nil)) (PValDict.cons "ssh_keys" (PVal.plist (PValList.cons (PVal.pstr "k1") PValList.nil)) PValDict.nil))) emptyHeap).2
    (writeVal (PVal.pdict (PValDict.cons "hostname" (PVal.pstr "a") PValDict.nil)) (writeVal (PVal.pdict (PValDict.cons "userdata" (PVal.pdict (PValDict.cons "packages" (PVal.pstr "vim") PValDict.nil)) (PValDict.cons "ssh_keys" (PVal.plist (PValList.cons (PVal.pstr "k1") PValList.nil)) PValDict.nil))) emptyHeap).2).2
    (writeVal (PVal.pdict (PValDict.cons "hostname" (PVal.pstr "b") PValDict.nil)) (writeVal (PVal.pdict (PValDict.cons "hostname" (PVal.pstr "a") PValDict.nil)) (writeVal (PVal.pdict (PValDict.cons "userdata" (PVal.pdict (PValDict.cons "packages" (PVal.pstr "vim") PValDict.nil)) (PValDict.cons "ssh_keys" (PVal.plist (PValList.cons (PVal.pstr "k1") PValList.nil)) PValDict.nil))) emptyHeap).2).2).2
    ((prepareMachines 5 4 [6, 8] (writeVal (PVal.pdict (PValDict.cons "hostname" (PVal.pstr "b") PValDict.nil)) (writeVal (PVal.pdict (PValDict.cons "hostname" (PVal.pstr "a") PValDict.nil)) (writeVal (PVal.pdict (PValDict.cons "userdata" (PVal.pdict (PValDict.cons "packages" (PVal.pstr "vim") PValDict.nil)) (PValDict.cons "ssh_keys" (PVal.plist (PValList.cons (PVal.pstr "k1") PValList.nil)) PValDict.nil))) emptyHeap).2).2).2).getD ([], emptyHeap)).2
    rfl rfl rfl rfl (by decide) (by decide) (by decide) (by decide) rfl
